import Mathlib

/-!
Verification development for the gorbac row-level filter engine
(package `filter` plus the role/permission composer).

The definitions below are a shallow embedding of the Go sources:
`filter/ir.go`, `filter/convert.go`, `filter/bindings.go`,
`filter/engine.go`, `filter/eval.go`, `filter/render.go`, and the
composer in the top-level package. Go `any` values are modelled by the
closed `Val` type (the engine only ever manipulates strings, 64-bit
integers, booleans, nil and slices thereof; float sources of `toInt64`
are out of scope). Go maps used purely for lookup are modelled as
association lists. Machine `int64` is modelled as `Int` (no arithmetic
is performed on values, so overflow never matters).

Where a feature is declared and tested in the sources but its renderer
implementation is absent (the `postgres_pgx` named-args dialect, and the
`TableAliases` / `OmitTableQualifier` render options), the corresponding
branch is modelled from the design document and marked
`Modelled from the spec:` in its doc comment.
-/

namespace Gorbac

/-- A single-quote character as a string, used when building SQL text. -/
def sq : String := String.mk ['\x27']

/-- Runtime values flowing through bindings, literals and SQL args
(Go `any`, restricted to the shapes the engine produces). -/
inductive Val where
  | vnull : Val
  | vstr (s : String) : Val
  | vint (n : Int) : Val
  | vbool (b : Bool) : Val
  | vlist (xs : List Val) : Val
deriving Repr

/-- Test for the Go nil value. -/
def Val.isNull : Val → Bool
  | .vnull => true
  | _ => false

/-- convert.go toInt64: numeric sources convert, everything else errors.
All integer widths are modelled by `vint`. -/
def toInt64 : Val → Except String Int
  | .vint n => .ok n
  | _ => .error "cannot convert value to int64"

/-- bindings.go toAnySlice: slices/arrays expand to their elements,
nil and scalars do not. -/
def toAnySlice : Val → Option (List Val)
  | .vlist xs => some xs
  | _ => none

/-- strings.HasPrefix, on the underlying character lists (computable
and kernel-reducible). -/
def hasPfx (p s : String) : Bool := decide (p.data <+: s.data)

/-- eval.go equalsLoose. -/
def equalsLoose (left right : Val) : Bool :=
  if left.isNull || right.isNull then left.isNull && right.isNull
  else
    match left with
    | .vstr l => match right with
      | .vstr r => l = r
      | _ => false
    | .vbool l => match right with
      | .vbool r => l = r
      | _ => false
    | _ =>
      match toInt64 left, toInt64 right with
      | .ok ln, .ok rn => ln = rn
      | _, _ => false

/-- DialectName (a string enum in the source:
"sqlite", "mysql", "postgres", "postgres_pgx"). -/
inductive DialectName where
  | sqlite | mysql | postgres | postgresNamedArgs
deriving Repr, DecidableEq

/-- ComparisonOperator (string enum "=", "!=", "<", "<=", ">", ">="). -/
inductive CompareOp where
  | eq | neq | lt | lte | gt | gte
deriving Repr, DecidableEq

/-- The SQL text of a comparison operator (the string value of the Go enum). -/
def CompareOp.toSQL : CompareOp → String
  | .eq => "=" | .neq => "!=" | .lt => "<" | .lte => "<=" | .gt => ">" | .gte => ">="

/-- render.go invertComparisonOperator (total on the six operators). -/
def invertComparisonOperator : CompareOp → CompareOp
  | .eq => .eq | .neq => .neq | .lt => .gt | .lte => .gte | .gt => .lt | .gte => .lte

/-- LogicalOperator (string enum "AND" / "OR"). -/
inductive LogicalOp where
  | land | lor
deriving Repr, DecidableEq

/-- FieldKind. The Go zero value "" behaves as scalar everywhere and is
identified with `scalar`. -/
inductive FieldKind where
  | scalar | boolColumn | jsonBool | jsonList | virtualAlias
deriving Repr, DecidableEq

/-- FieldType. -/
inductive FieldType where
  | string | int | bool | timestamp
deriving Repr, DecidableEq

/-- Column identifies the backing table column. -/
structure Column where
  table : String
  name : String
deriving Repr, DecidableEq

/-- Field metadata (engine: Field). `allowedComparisonOps` is kept for
completeness; it is consulted by the AST builder, not by the renderer
or evaluator embedded here. -/
structure Field where
  name : String
  kind : FieldKind
  type : FieldType
  column : Column
  jsonPath : List String
  aliasFor : String
  supportsContains : Bool
  expressions : List (DialectName × String)
  allowedComparisonOps : List CompareOp
deriving Repr, DecidableEq

/-- Convenient all-defaults field value (Go zero value with explicit
name/kind/type/column overridden at use sites). -/
def Field.base : Field :=
  { name := "", kind := .scalar, type := .string
    column := { table := "", name := "" }
    jsonPath := [], aliasFor := "", supportsContains := false
    expressions := [], allowedComparisonOps := [] }

/-- Schema: the field map is an association list (lookup-only in the
embedded operations, so map iteration order never matters). -/
structure Schema where
  name : String
  fields : List (String × Field)
deriving Repr, DecidableEq

/-- Schema.Field: lookup by identifier name. -/
def Schema.field (s : Schema) (name : String) : Option Field :=
  s.fields.lookup name

/-- Schema.ResolveAlias: one-step resolution of a virtual alias to its
target field. -/
def Schema.resolveAlias (s : Schema) (name : String) : Option Field :=
  match s.field name with
  | none => none
  | some f =>
      if f.kind = .virtualAlias then s.field f.aliasFor
      else some f

/-- DialectSQL: per-dialect SQL templates of a registered sql() predicate. -/
structure DialectSQL where
  Default : String
  SQLite : String
  MySQL : String
  Postgres : String
deriving Repr, DecidableEq

/-- DialectSQL.template: dialect-specific template with fallback to Default. -/
def DialectSQL.template (t : DialectSQL) (d : DialectName) : String :=
  match d with
  | .sqlite => if t.SQLite ≠ "" then t.SQLite else t.Default
  | .mysql => if t.MySQL ≠ "" then t.MySQL else t.Default
  | .postgres => if t.Postgres ≠ "" then t.Postgres else t.Default
  | _ => t.Default

/-- ValueExpr (ir.go): scalar expressions feeding comparisons. -/
inductive ValueExpr where
  | fieldRef (name : String) : ValueExpr
  | paramRef (name : String) : ValueExpr
  | literal (v : Val) : ValueExpr
  | function (name : String) (args : List ValueExpr) : ValueExpr
deriving Repr

/-- PredicateExpr (ir.go): predicates inside list comprehensions. -/
inductive PredicateExpr where
  | startsWithPred (pfx : ValueExpr) : PredicateExpr
  | endsWithPred (sfx : ValueExpr) : PredicateExpr
  | containsPred (sub : ValueExpr) : PredicateExpr
deriving Repr

/-- ComprehensionKind (only "exists" is supported). -/
inductive ComprehensionKind where
  | exists_
deriving Repr, DecidableEq

/-- Bindings (bindings.go): runtime values for non-schema variables,
modelled as an association list. -/
abbrev Bindings := List (String × Val)

/-- In-memory evaluation hook of a registered sql() predicate
(SQLPredicateEval). It receives the resolved args and the full var map. -/
abbrev SQLPredicateEvalFn := List Val → Bindings → Except String Bool

/-- Condition (ir.go): the tagged-union condition IR. -/
inductive Condition where
  | logical (op : LogicalOp) (left right : Condition) : Condition
  | not (expr : Condition) : Condition
  | fieldPred (field : String) : Condition
  | comparison (left : ValueExpr) (op : CompareOp) (right : ValueExpr) : Condition
  | inCond (left : ValueExpr) (values : List ValueExpr) : Condition
  | elementIn (element : ValueExpr) (field : String) : Condition
  | containsCond (field : String) (value : ValueExpr) : Condition
  | startsWithCond (field : String) (value : ValueExpr) : Condition
  | endsWithCond (field : String) (value : ValueExpr) : Condition
  | listComp (kind : ComprehensionKind) (field : String) (iterVar : String)
      (pred : PredicateExpr) : Condition
  | sqlPred (name : String) (sql : DialectSQL) (args : List ValueExpr)
      (evalFn : Option SQLPredicateEvalFn) : Condition
  | constant (value : Bool) : Condition

/-- RenderOptions + the fixed part of the renderer (render.go newRenderer):
everything of the `renderer` struct except the mutable arg/counter state.
`tableAliases` and `omitTableQualifier` are carried for the
spec-modelled qualification (see `qualifyColumn`). -/
structure RCtx where
  schema : Schema
  dialect : DialectName
  placeholderOffset : Nat
  tableAliases : List (String × String)
  omitTableQualifier : Bool
  bindings : Option Bindings

/-- The mutable renderer state: placeholder counter and the arg
accumulators (render.go renderer.placeholderCounter / renderer.args;
`namedArgs` is the spec-modelled accumulator of the named-args dialect). -/
structure RState where
  counter : Nat
  args : List Val
  namedArgs : List (String × Val)
deriving Repr

/-- The renderer state a fresh Render call starts from (newRenderer). -/
def initRState : RState := { counter := 0, args := [], namedArgs := [] }

/-- renderResult (render.go). -/
structure RenderResult where
  sql : String := ""
  trivial : Bool := false
  unsatisfiable : Bool := false
deriving Repr, DecidableEq

/-- The trivial render result. -/
def trivialRR : RenderResult := { trivial := true }

/-- The unsatisfiable render result ("1 = 0"). -/
def unsatRR : RenderResult := { sql := "1 = 0", unsatisfiable := true }

/-- Statement (engine.go): the rendered SQL fragment plus its args.
`namedArgs` is populated only by the named-args dialect. -/
structure Statement where
  sql : String
  args : List Val
  namedArgs : List (String × Val)
deriving Repr

/-- render.go addArg: bump the placeholder counter, stash the arg, and
emit the dialect placeholder. The `postgresNamedArgs` branch is
`Modelled from the spec:` the named-args renderer implementation is
missing from src/ (only the DialectPostgresNamedArgs declaration,
Statement.NamedArgs and their tests exist); per the spec it emits
`@pN`, accumulates the value under key `pN` in namedArgs, and leaves
positional args empty (fresh keys per render, no offset). -/
def addArg (ctx : RCtx) (value : Val) (s : RState) : String × RState :=
  let c := s.counter + 1
  match ctx.dialect with
  | .postgres =>
      ("$" ++ toString (ctx.placeholderOffset + c),
       { s with counter := c, args := s.args ++ [value] })
  | .postgresNamedArgs =>
      ("@p" ++ toString c,
       { s with counter := c, namedArgs := s.namedArgs ++ [("p" ++ toString c, value)] })
  | _ =>
      ("?", { s with counter := c, args := s.args ++ [value] })

/-- render.go addBoolArg: sqlite stores bools as 0/1 integers. -/
def addBoolArg (ctx : RCtx) (value : Bool) (s : RState) : String × RState :=
  match ctx.dialect with
  | .sqlite => addArg ctx (.vint (if value then 1 else 0)) s
  | _ => addArg ctx (.vbool value) s

/-- Dialect-specific quoting of a qualified column (the unconditional part
of render.go qualifyColumn). The named-args dialect uses postgres-style
unquoted identifiers (`Modelled from the spec:` its renderer support is
missing from src/). -/
def qualifyWithTable (d : DialectName) (table name : String) : String :=
  match d with
  | .postgres => table ++ "." ++ name
  | .postgresNamedArgs => table ++ "." ++ name
  | _ => "`" ++ table ++ "`.`" ++ name ++ "`"

/-- render.go qualifyColumn. The tableAliases / omitTableQualifier
handling is `Modelled from the spec:` RenderOptions declares both
(engine.go) and the tests exercise them, but the renderer implementation
is missing from src/. Per the spec: tableAliases remaps a schema table
name to another qualifier, an empty mapped value means no qualifier, and
omitTableQualifier drops table qualifiers entirely. -/
def qualifyColumn (ctx : RCtx) (col : Column) : String :=
  if ctx.omitTableQualifier then col.name
  else
    match ctx.tableAliases.lookup col.table with
    | some "" => col.name
    | some q => qualifyWithTable ctx.dialect q col.name
    | none => qualifyWithTable ctx.dialect col.table col.name

/-- Apply a one-verb format template (Go fmt.Sprintf with a single %s). -/
def fmtS (tmpl arg : String) : String :=
  match tmpl.splitOn "%s" with
  | [a, b] => a ++ arg ++ b
  | _ => tmpl

/-- engine Field.columnExpr: the qualified column, optionally wrapped by a
schema-supplied per-dialect expression template. -/
def Field.columnExpr (f : Field) (ctx : RCtx) : String :=
  let base := qualifyColumn ctx f.column
  match f.expressions.lookup ctx.dialect with
  | some expr => if expr ≠ "" then fmtS expr base else base
  | none => base

/-- render.go jsonPath: "$." joined dotted path. -/
def jsonPath (f : Field) : String :=
  "$." ++ String.intercalate "." f.jsonPath

/-- render.go buildPostgresJSONAccessor: chain -> between keys, with ->>
at the terminal key when a scalar (text) is needed. -/
def buildPostgresJSONAccessor (base : String) : List String → Bool → String
  | [], _ => base
  | [p], true => base ++ "->>" ++ sq ++ p ++ sq
  | [p], false => base ++ "->" ++ sq ++ p ++ sq
  | p :: rest, terminalText =>
      buildPostgresJSONAccessor (base ++ "->" ++ sq ++ p ++ sq) rest terminalText

/-- render.go jsonExtractExpr. -/
def jsonExtractExpr (ctx : RCtx) (f : Field) : String :=
  let column := qualifyColumn ctx f.column
  match ctx.dialect with
  | .sqlite | .mysql =>
      "JSON_EXTRACT(" ++ column ++ ", " ++ sq ++ jsonPath f ++ sq ++ ")"
  | .postgres => buildPostgresJSONAccessor column f.jsonPath true
  | _ => ""

/-- render.go jsonArrayExpr (terminal accessor stays json-typed). -/
def jsonArrayExpr (ctx : RCtx) (f : Field) : String :=
  let column := qualifyColumn ctx f.column
  match ctx.dialect with
  | .sqlite | .mysql =>
      "JSON_EXTRACT(" ++ column ++ ", " ++ sq ++ jsonPath f ++ sq ++ ")"
  | .postgres => buildPostgresJSONAccessor column f.jsonPath false
  | _ => ""

/-- render.go jsonArrayLengthExpr. -/
def jsonArrayLengthExpr (ctx : RCtx) (f : Field) : String :=
  let arrayExpr := jsonArrayExpr ctx f
  match ctx.dialect with
  | .sqlite => "JSON_ARRAY_LENGTH(COALESCE(" ++ arrayExpr ++ ", JSON_ARRAY()))"
  | .mysql => "JSON_LENGTH(COALESCE(" ++ arrayExpr ++ ", JSON_ARRAY()))"
  | .postgres =>
      "jsonb_array_length(COALESCE(" ++ arrayExpr ++ ", " ++ sq ++ "[]" ++ sq ++ "::jsonb))"
  | _ => ""

/-- render.go renderer.resolveValue: literals resolve to themselves,
params look up the bindings (error when bindings are nil or the name is
absent); any other expression shape is rejected. -/
def resolveValue (ctx : RCtx) : ValueExpr → Except String Val
  | .literal v => .ok v
  | .paramRef n =>
      match ctx.bindings with
      | none => .error ("missing bindings for " ++ n)
      | some b =>
          match b.lookup n with
          | none => .error ("missing binding value for " ++ n)
          | some v => .ok v
  | _ => .error "expression must be a literal or param"

/-! ## Evaluator (eval.go) -/

/-- eval.go evalValueExpr: field refs and params read the var map,
literals are themselves, and size() measures a slice (nil counts as 0). -/
def evalValueExpr (schema : Schema) : ValueExpr → Bindings → Except String Val
  | .fieldRef name, vars =>
      match vars.lookup name with
      | none => .error ("missing value for field " ++ name)
      | some v => .ok v
  | .paramRef name, vars =>
      match vars.lookup name with
      | none => .error ("missing value for variable " ++ name)
      | some v => .ok v
  | .literal v, _ => .ok v
  | .function name args, vars =>
      if name ≠ "size" then .error ("unsupported function " ++ name)
      else
        match args with
        | [arg] => do
            let v ← evalValueExpr schema arg vars
            if v.isNull then .ok (.vint 0)
            else
              match toAnySlice v with
              | some list => .ok (.vint list.length)
              | none => .error "size() expects a slice/array argument"
        | _ => .error "size() expects one argument"

/-- eval.go evalComparison: null admits only eq/neq, then a type-directed
comparison (string, bool, numeric via toInt64). -/
def evalComparison (schema : Schema) (leftE : ValueExpr) (op : CompareOp)
    (rightE : ValueExpr) (vars : Bindings) : Except String Bool := do
  let left ← evalValueExpr schema leftE vars
  let right ← evalValueExpr schema rightE vars
  if left.isNull || right.isNull then
    match op with
    | .eq => .ok (left.isNull && right.isNull)
    | .neq => .ok (!(left.isNull && right.isNull))
    | _ => .error "operator not supported for null comparison"
  else
    match left with
    | .vstr l =>
        match right with
        | .vstr r =>
            match op with
            | .eq => .ok (l == r)
            | .neq => .ok (l != r)
            | .lt => .ok (decide (l < r))
            | .lte => .ok (decide (l ≤ r))
            | .gt => .ok (decide (r < l))
            | .gte => .ok (decide (r ≤ l))
        | _ => .error "comparison type mismatch"
    | .vbool l =>
        match right with
        | .vbool r =>
            match op with
            | .eq => .ok (l == r)
            | .neq => .ok (l != r)
            | _ => .error "unsupported bool operator"
        | _ => .error "comparison type mismatch"
    | _ => do
        let ln ← match toInt64 left with
          | .ok n => Except.ok n
          | .error _ => Except.error "comparison expects numeric values"
        let rn ← match toInt64 right with
          | .ok n => Except.ok n
          | .error _ => Except.error "comparison expects numeric values"
        match op with
        | .eq => .ok (ln == rn)
        | .neq => .ok (ln != rn)
        | .lt => .ok (decide (ln < rn))
        | .lte => .ok (decide (ln ≤ rn))
        | .gt => .ok (decide (rn < ln))
        | .gte => .ok (decide (rn ≤ ln))

/-- eval.go evalIn right-hand flattening: each value is evaluated and a
slice-typed result is expanded into its elements. -/
def evalFlattenValues (schema : Schema) (vars : Bindings) :
    List ValueExpr → Except String (List Val)
  | [] => .ok []
  | v :: rest => do
      let right ← evalValueExpr schema v vars
      let tail ← evalFlattenValues schema vars rest
      match toAnySlice right with
      | some expanded => .ok (expanded ++ tail)
      | none => .ok (right :: tail)

/-- Inner candidate loop of the alias membership evaluation (eval.go
evalIn): exact match, or hierarchical prefix `cand ++ "/"` when the
alias is the reserved name tag. -/
def evalAliasCands (hierarchical : Bool) (itemStr : String) :
    List Val → Except String Bool
  | [] => .ok false
  | .vstr candStr :: rest =>
      if itemStr == candStr then .ok true
      else if hierarchical && hasPfx (candStr ++ "/") itemStr then .ok true
      else evalAliasCands hierarchical itemStr rest
  | _ :: _ => .error "alias expects string values"

/-- Outer item loop of the alias membership evaluation (eval.go evalIn). -/
def evalAliasItems (hierarchical : Bool) (rightFlat : List Val) :
    List Val → Except String Bool
  | [] => .ok false
  | .vstr itemStr :: rest =>
      match evalAliasCands hierarchical itemStr rightFlat with
      | .error e => .error e
      | .ok true => .ok true
      | .ok false => evalAliasItems hierarchical rightFlat rest
  | _ :: _ => .error "field expects string elements"

/-- eval.go evalIn, virtual-alias-over-json-list branch. -/
def evalInAlias (schema : Schema) (aliasName : String) (resolved : Field)
    (values : List ValueExpr) (vars : Bindings) : Except String Bool :=
  match vars.lookup resolved.name with
  | none => .ok false
  | some listRaw =>
      if listRaw.isNull then .ok false
      else
        match toAnySlice listRaw with
        | none => .error ("field expects a slice/array value: " ++ resolved.name)
        | some list => do
            let rightFlat ← evalFlattenValues schema vars values
            evalAliasItems (aliasName == "tag") rightFlat list

/-- eval.go evalIn, generic value loop (equalsLoose against each value,
expanding slice-typed values). -/
def evalInValues (schema : Schema) (left : Val) (vars : Bindings) :
    List ValueExpr → Except String Bool
  | [] => .ok false
  | v :: rest => do
      let right ← evalValueExpr schema v vars
      match toAnySlice right with
      | some list =>
          if list.any (fun item => equalsLoose left item) then .ok true
          else evalInValues schema left vars rest
      | none =>
          if equalsLoose left right then .ok true
          else evalInValues schema left vars rest

/-- eval.go evalIn, generic (non-alias) path. -/
def evalInGeneric (schema : Schema) (leftE : ValueExpr)
    (values : List ValueExpr) (vars : Bindings) : Except String Bool := do
  let left ← evalValueExpr schema leftE vars
  evalInValues schema left vars values

/-- eval.go evalIn. -/
def evalIn (schema : Schema) (leftE : ValueExpr) (values : List ValueExpr)
    (vars : Bindings) : Except String Bool :=
  match leftE with
  | .fieldRef name =>
      match schema.field name with
      | some field =>
          if field.kind = .virtualAlias then
            match schema.resolveAlias name with
            | none => .error ("invalid alias " ++ name)
            | some resolved =>
                if resolved.kind = .jsonList then
                  evalInAlias schema name resolved values vars
                else evalInGeneric schema leftE values vars
          else evalInGeneric schema leftE values vars
      | none => evalInGeneric schema leftE values vars
  | _ => evalInGeneric schema leftE values vars

/-- eval.go evalElementIn. -/
def evalElementIn (schema : Schema) (element : ValueExpr) (condField : String)
    (vars : Bindings) : Except String Bool :=
  match schema.field condField with
  | none => .error ("unknown field " ++ condField)
  | some field0 =>
      let step : Except String (Field × String) :=
        if field0.kind = .virtualAlias then
          match schema.resolveAlias condField with
          | none => .error ("invalid alias " ++ condField)
          | some resolved => .ok (resolved, resolved.name)
        else .ok (field0, condField)
      match step with
      | .error e => .error e
      | .ok (field, fieldName) =>
          if field.kind ≠ .jsonList then
            .error ("field is not a JSON list: " ++ condField)
          else
            match vars.lookup fieldName with
            | none => .ok false
            | some listRaw =>
                if listRaw.isNull then .ok false
                else
                  match toAnySlice listRaw with
                  | none => .error ("field expects a slice/array value: " ++ fieldName)
                  | some list => do
                      let elementV ← evalValueExpr schema element vars
                      .ok (list.any (fun item => equalsLoose elementV item))

/-- Element loop of eval.go evalListComprehension: exists-semantics over
string elements, error on a non-string element before a later match. -/
def existsStringPred (p : String → Bool) : List Val → Except String Bool
  | [] => .ok false
  | .vstr s :: rest => if p s then .ok true else existsStringPred p rest
  | _ :: _ => .error "field expects string elements"

/-- eval.go evalListComprehension. -/
def evalListComprehension (schema : Schema) (kind : ComprehensionKind)
    (condField : String) (pred : PredicateExpr) (vars : Bindings) :
    Except String Bool :=
  match kind with
  | .exists_ =>
      match schema.field condField with
      | none => .error ("unknown field " ++ condField)
      | some field0 =>
          let step : Except String (Field × String) :=
            if field0.kind = .virtualAlias then
              match schema.resolveAlias condField with
              | none => .error ("invalid alias " ++ condField)
              | some resolved => .ok (resolved, resolved.name)
            else .ok (field0, condField)
          match step with
          | .error e => .error e
          | .ok (field, fieldName) =>
              if field.kind ≠ .jsonList then
                .error ("field is not a JSON list: " ++ condField)
              else
                match vars.lookup fieldName with
                | none => .ok false
                | some listRaw =>
                    if listRaw.isNull then .ok false
                    else
                      match toAnySlice listRaw with
                      | none => .error ("field expects a slice/array value: " ++ fieldName)
                      | some list =>
                          match pred with
                          | .startsWithPred pfxE => do
                              let pfxRaw ← evalValueExpr schema pfxE vars
                              match pfxRaw with
                              | .vstr pfx =>
                                  existsStringPred (fun s => hasPfx pfx s) list
                              | _ => .error "startsWith expects string prefix value"
                          | .endsWithPred sfxE => do
                              let sfxRaw ← evalValueExpr schema sfxE vars
                              match sfxRaw with
                              | .vstr sfx =>
                                  existsStringPred (fun s => decide (sfx.data <:+ s.data)) list
                              | _ => .error "endsWith expects string suffix value"
                          | .containsPred subE => do
                              let subRaw ← evalValueExpr schema subE vars
                              match subRaw with
                              | .vstr sub =>
                                  existsStringPred (fun s => decide (sub.data <:+: s.data)) list
                              | _ => .error "contains expects string substring value"

/-- eval.go evalContains. -/
def evalContains (schema : Schema) (condField : String) (value : ValueExpr)
    (vars : Bindings) : Except String Bool :=
  match vars.lookup condField with
  | none => .error ("missing value for field " ++ condField)
  | some raw =>
      match raw with
      | .vstr str => do
          let needleRaw ← evalValueExpr schema value vars
          match needleRaw with
          | .vstr needle => .ok (decide (needle.data <:+: str.data))
          | _ => .error "contains() requires string needle"
      | _ => .error ("contains() requires string field " ++ condField)

/-- eval.go evalStartsWith. -/
def evalStartsWith (schema : Schema) (condField : String) (value : ValueExpr)
    (vars : Bindings) : Except String Bool :=
  match vars.lookup condField with
  | none => .error ("missing value for field " ++ condField)
  | some raw =>
      match raw with
      | .vstr str => do
          let pfxRaw ← evalValueExpr schema value vars
          match pfxRaw with
          | .vstr pfx =>
              if pfx = "" then .ok true
              else .ok (hasPfx pfx str)
          | _ => .error "startsWith() requires string prefix"
      | _ => .error ("startsWith() requires string field " ++ condField)

/-- eval.go evalEndsWith. -/
def evalEndsWith (schema : Schema) (condField : String) (value : ValueExpr)
    (vars : Bindings) : Except String Bool :=
  match vars.lookup condField with
  | none => .error ("missing value for field " ++ condField)
  | some raw =>
      match raw with
      | .vstr str => do
          let sfxRaw ← evalValueExpr schema value vars
          match sfxRaw with
          | .vstr sfx =>
              if sfx = "" then .ok true
              else .ok (decide (sfx.data <:+ str.data))
          | _ => .error "endsWith() requires string suffix"
      | _ => .error ("endsWith() requires string field " ++ condField)

/-- eval.go EvaluateCondition: the top-level evaluator walk over the
condition tree (a nil vars map and the empty map behave identically,
so vars is simply an association list here). -/
def EvaluateCondition (schema : Schema) : Condition → Bindings → Except String Bool
  | .logical op left right, vars => do
      let l ← EvaluateCondition schema left vars
      match op with
      | .land =>
          if !l then .ok false
          else EvaluateCondition schema right vars
      | .lor =>
          if l then .ok true
          else EvaluateCondition schema right vars
  | .not expr, vars => do
      let v ← EvaluateCondition schema expr vars
      .ok (!v)
  | .fieldPred fieldName, vars =>
      match vars.lookup fieldName with
      | none => .error ("missing value for field " ++ fieldName)
      | some value =>
          match value with
          | .vbool b => .ok b
          | _ => .error ("field expects bool value: " ++ fieldName)
  | .comparison l op r, vars => evalComparison schema l op r vars
  | .inCond l values, vars => evalIn schema l values vars
  | .elementIn element fieldName, vars => evalElementIn schema element fieldName vars
  | .containsCond fieldName value, vars => evalContains schema fieldName value vars
  | .startsWithCond fieldName value, vars => evalStartsWith schema fieldName value vars
  | .endsWithCond fieldName value, vars => evalEndsWith schema fieldName value vars
  | .listComp kind fieldName _ pred, vars =>
      evalListComprehension schema kind fieldName pred vars
  | .sqlPred name _ args evalFn, vars =>
      match evalFn with
      | none => .error ("sql predicate does not support in-memory evaluation: " ++ name)
      | some f => do
          let argVals ← args.mapM (fun e => evalValueExpr schema e vars)
          f argVals vars
  | .constant b, _ => .ok b

/-! ## Renderer helpers (render.go) -/

/-- Go strings.TrimSpace: drop leading and trailing whitespace
(modelled over the char list so that it evaluates by reduction). -/
def trimSpace (s : String) : String :=
  String.mk (((s.data.dropWhile Char.isWhitespace).reverse.dropWhile
    Char.isWhitespace).reverse)

/-- The alias-resolution prologue shared by the render helpers: a
virtual alias resolves one step (or errors), anything else is kept. -/
def resolveAliasField (ctx : RCtx) (name : String) (field0 : Field) :
    Except String Field :=
  if field0.kind = .virtualAlias then
    match ctx.schema.resolveAlias name with
    | none => .error ("invalid alias " ++ name)
    | some resolved => .ok resolved
  else .ok field0

/-- combineAndAll (render.go): unsatisfiable children dominate, trivial
children are dropped; zero survivors are trivial, a single survivor
stands alone, several are joined with AND. (The Go loop returns early on
the first unsatisfiable child; since rendering already happened, the
early return is equivalent to this any-test.) -/
def combineAndAll (conds : List RenderResult) : RenderResult :=
  if conds.any (fun c => c.unsatisfiable) then unsatRR
  else
    match conds.filter (fun c => !c.trivial) with
    | [] => trivialRR
    | [x] => x
    | filtered =>
        { sql := "(" ++ String.intercalate " AND " (filtered.map (fun c => c.sql)) ++ ")" }

/-- combineOrAll (render.go): trivial children dominate, unsatisfiable
children are dropped; zero survivors are unsatisfiable, a single
survivor stands alone, several are joined with OR. -/
def combineOrAll (conds : List RenderResult) : RenderResult :=
  if conds.any (fun c => c.trivial) then trivialRR
  else
    match conds.filter (fun c => !c.unsatisfiable) with
    | [] => unsatRR
    | [x] => x
    | filtered =>
        { sql := "(" ++ String.intercalate " OR " (filtered.map (fun c => c.sql)) ++ ")" }

/-- render.go renderFieldComparison: null right operands admit only
eq/neq (IS NULL / IS NOT NULL); otherwise the arg is typed per the
field type and placed behind a fresh placeholder. -/
def renderFieldComparison (ctx : RCtx) (field : Field) (op : CompareOp)
    (right : ValueExpr) (s : RState) : Except String (RenderResult × RState) := do
  let value ← resolveValue ctx right
  let columnExpr := field.columnExpr ctx
  if value.isNull then
    match op with
    | .eq => .ok ({ sql := columnExpr ++ " IS NULL" }, s)
    | .neq => .ok ({ sql := columnExpr ++ " IS NOT NULL" }, s)
    | _ => .error ("operator not supported for null comparison: " ++ op.toSQL)
  else
    match field.type with
    | .string =>
        match value with
        | .vstr str =>
            let (placeholder, s1) := addArg ctx (.vstr str) s
            .ok ({ sql := columnExpr ++ " " ++ op.toSQL ++ " " ++ placeholder }, s1)
        | _ => .error ("field expects string value: " ++ field.name)
    | .int | .timestamp =>
        match toInt64 value with
        | .error _ => .error ("field expects integer value: " ++ field.name)
        | .ok num =>
            let (placeholder, s1) := addArg ctx (.vint num) s
            .ok ({ sql := columnExpr ++ " " ++ op.toSQL ++ " " ++ placeholder }, s1)
    | .bool =>
        match value with
        | .vbool b =>
            let (placeholder, s1) := addBoolArg ctx b s
            .ok ({ sql := columnExpr ++ " " ++ op.toSQL ++ " " ++ placeholder }, s1)
        | _ => .error ("field expects bool value: " ++ field.name)

/-- render.go renderJSONBoolComparison. -/
def renderJSONBoolComparison (ctx : RCtx) (field : Field) (op : CompareOp)
    (right : ValueExpr) (s : RState) : Except String (RenderResult × RState) := do
  let raw ← resolveValue ctx right
  match raw with
  | .vbool value =>
      let jsonExpr := jsonExtractExpr ctx field
      match ctx.dialect with
      | .sqlite =>
          match op with
          | .eq =>
              if value then .ok ({ sql := jsonExpr ++ " IS TRUE" }, s)
              else .ok ({ sql := "NOT(" ++ jsonExpr ++ " IS TRUE)" }, s)
          | .neq =>
              if value then .ok ({ sql := "NOT(" ++ jsonExpr ++ " IS TRUE)" }, s)
              else .ok ({ sql := jsonExpr ++ " IS TRUE" }, s)
          | _ => .error "operator not supported for boolean JSON field"
      | .mysql =>
          let boolStr := if value then "true" else "false"
          .ok ({ sql := jsonExpr ++ " " ++ op.toSQL ++ " CAST(" ++ sq ++ boolStr ++ sq ++ " AS JSON)" }, s)
      | .postgres =>
          let (placeholder, s1) := addArg ctx (.vbool value) s
          .ok ({ sql := "(" ++ jsonExpr ++ ")::boolean " ++ op.toSQL ++ " " ++ placeholder }, s1)
      | _ => .error "unsupported dialect"
  | _ => .error ("field expects bool value: " ++ field.name)

/-- render.go renderFunctionComparison: only size(jsonListField) compared
against an integer. -/
def renderFunctionComparison (ctx : RCtx) (fname : String) (fargs : List ValueExpr)
    (op : CompareOp) (right : ValueExpr) (s : RState) :
    Except String (RenderResult × RState) :=
  if fname ≠ "size" then .error ("unsupported function in comparison: " ++ fname)
  else
    match fargs with
    | [arg] =>
        match arg with
        | .fieldRef fieldName =>
            match ctx.schema.field fieldName with
            | none => .error ("unknown field " ++ fieldName)
            | some field0 =>
                match resolveAliasField ctx fieldName field0 with
                | .error e => .error e
                | .ok field =>
                    if field.kind ≠ .jsonList then
                      .error ("size() only supports json list fields: " ++ field.name)
                    else do
                      let raw ← resolveValue ctx right
                      match toInt64 raw with
                      | .error _ => .error "size() comparison expects integer value"
                      | .ok num =>
                          let expr := jsonArrayLengthExpr ctx field
                          let (placeholder, s1) := addArg ctx (.vint num) s
                          .ok ({ sql := expr ++ " " ++ op.toSQL ++ " " ++ placeholder }, s1)
        | _ => .error "size() argument must be a field"
    | _ => .error "size() expects one argument"

/-- The FieldRef-on-the-left arm of render.go renderComparison: resolve
the field (through aliases) and dispatch on its kind. -/
def renderComparisonFieldLeft (ctx : RCtx) (name : String) (op : CompareOp)
    (right : ValueExpr) (s : RState) : Except String (RenderResult × RState) :=
  match ctx.schema.field name with
  | none => .error ("unknown field " ++ name)
  | some field0 =>
      match resolveAliasField ctx name field0 with
      | .error e => .error e
      | .ok field =>
          match field.kind with
          | .jsonBool => renderJSONBoolComparison ctx field op right s
          | .jsonList => .error ("field does not support comparison: " ++ name)
          | _ => renderFieldComparison ctx field op right s

/-- render.go renderComparison. The Go source handles a field or a
size() call on the right by re-entering itself with the sides swapped
and the operator inverted; that recursive call lands directly in the
FieldRef / FunctionValue arm, which is what the inlined calls below do. -/
def renderComparison (ctx : RCtx) (left : ValueExpr) (op : CompareOp)
    (right : ValueExpr) (s : RState) : Except String (RenderResult × RState) :=
  match left with
  | .fieldRef name => renderComparisonFieldLeft ctx name op right s
  | .function fname fargs => renderFunctionComparison ctx fname fargs op right s
  | _ =>
      match right with
      | .fieldRef rname =>
          renderComparisonFieldLeft ctx rname (invertComparisonOperator op) left s
      | .function fname fargs =>
          renderFunctionComparison ctx fname fargs (invertComparisonOperator op) left s
      | _ => do
          let vars := ctx.bindings.getD []
          let checkOk ← evalComparison ctx.schema left op right vars
          if checkOk then .ok (trivialRR, s) else .ok (unsatRR, s)

/-- The value-flattening loop of render.go renderInCondition and
renderAliasInList: resolve each value, expanding slice-typed results. -/
def flattenInValues (ctx : RCtx) : List ValueExpr → Except String (List Val)
  | [] => .ok []
  | v :: rest => do
      let raw ← resolveValue ctx v
      let tail ← flattenInValues ctx rest
      match toAnySlice raw with
      | some list => .ok (list ++ tail)
      | none => .ok (raw :: tail)

/-- The per-element placeholder loop of render.go renderInCondition:
null elements are rejected, strings and integers are placed behind
fresh placeholders in order. -/
def renderInElems (ctx : RCtx) (field : Field) :
    List Val → RState → Except String (List String × RState)
  | [], s => .ok ([], s)
  | raw :: rest, s =>
      if raw.isNull then
        .error ("field does not support IN() with null values: " ++ field.name)
      else
        match field.type with
        | .string =>
            match raw with
            | .vstr str =>
                let (p, s1) := addArg ctx (.vstr str) s
                match renderInElems ctx field rest s1 with
                | .error e => .error e
                | .ok (ps, s2) => .ok (p :: ps, s2)
            | _ => .error ("field expects string values: " ++ field.name)
        | .int | .timestamp =>
            match toInt64 raw with
            | .error _ => .error ("field expects integer values: " ++ field.name)
            | .ok num =>
                let (p, s1) := addArg ctx (.vint num) s
                match renderInElems ctx field rest s1 with
                | .error e => .error e
                | .ok (ps, s2) => .ok (p :: ps, s2)
        | _ => .error ("field does not support IN(): " ++ field.name)

/-- The per-element loop of render.go renderAliasInList: one exact-match
fragment per element, OR-ed with a hierarchical prefix fragment when the
alias is the reserved name tag. -/
def renderAliasInElems (ctx : RCtx) (aliasName : String) (arrayExpr : String)
    (hierarchical : Bool) : List Val → RState → Except String (List String × RState)
  | [], s => .ok ([], s)
  | raw :: rest, s =>
      if raw.isNull then
        .error ("alias does not support IN() with null values: " ++ aliasName)
      else
        match raw with
        | .vstr str =>
            match ctx.dialect with
            | .sqlite =>
                let (p1, s1) := addArg ctx (.vstr ("%\"" ++ str ++ "\"%")) s
                let exactMatch := arrayExpr ++ " LIKE " ++ p1
                if hierarchical then
                  let (p2, s2) := addArg ctx (.vstr ("%\"" ++ str ++ "/%")) s1
                  let prefixMatch := arrayExpr ++ " LIKE " ++ p2
                  match renderAliasInElems ctx aliasName arrayExpr hierarchical rest s2 with
                  | .error e => .error e
                  | .ok (cs, s3) =>
                      .ok (("(" ++ exactMatch ++ " OR " ++ prefixMatch ++ ")") :: cs, s3)
                else
                  match renderAliasInElems ctx aliasName arrayExpr hierarchical rest s1 with
                  | .error e => .error e
                  | .ok (cs, s3) => .ok (exactMatch :: cs, s3)
            | .mysql =>
                let (p1, s1) := addArg ctx (.vstr ("\"" ++ str ++ "\"")) s
                let exactMatch := "JSON_CONTAINS(" ++ arrayExpr ++ ", " ++ p1 ++ ")"
                if hierarchical then
                  let (p2, s2) := addArg ctx (.vstr ("%\"" ++ str ++ "/%")) s1
                  let prefixMatch := arrayExpr ++ " LIKE " ++ p2
                  match renderAliasInElems ctx aliasName arrayExpr hierarchical rest s2 with
                  | .error e => .error e
                  | .ok (cs, s3) =>
                      .ok (("(" ++ exactMatch ++ " OR " ++ prefixMatch ++ ")") :: cs, s3)
                else
                  match renderAliasInElems ctx aliasName arrayExpr hierarchical rest s1 with
                  | .error e => .error e
                  | .ok (cs, s3) => .ok (exactMatch :: cs, s3)
            | .postgres =>
                let (p1, s1) := addArg ctx (.vstr ("\"" ++ str ++ "\"")) s
                let exactMatch := arrayExpr ++ " @> jsonb_build_array(" ++ p1 ++ "::json)"
                if hierarchical then
                  let (p2, s2) := addArg ctx (.vstr ("%\"" ++ str ++ "/%")) s1
                  let prefixMatch := "(" ++ arrayExpr ++ ")::text LIKE " ++ p2
                  match renderAliasInElems ctx aliasName arrayExpr hierarchical rest s2 with
                  | .error e => .error e
                  | .ok (cs, s3) =>
                      .ok (("(" ++ exactMatch ++ " OR " ++ prefixMatch ++ ")") :: cs, s3)
                else
                  match renderAliasInElems ctx aliasName arrayExpr hierarchical rest s1 with
                  | .error e => .error e
                  | .ok (cs, s3) => .ok (exactMatch :: cs, s3)
            | _ => .error "unsupported dialect"
        | _ => .error ("alias expects string values: " ++ aliasName)

/-- render.go renderAliasInList. -/
def renderAliasInList (ctx : RCtx) (aliasName : String) (field : Field)
    (values : List ValueExpr) (s : RState) : Except String (RenderResult × RState) := do
  let flat ← flattenInValues ctx values
  if flat.isEmpty then .ok (unsatRR, s)
  else
    let arrayExpr := jsonArrayExpr ctx field
    let hierarchical := aliasName == "tag"
    match renderAliasInElems ctx aliasName arrayExpr hierarchical flat s with
    | .error e => .error e
    | .ok (conditions, s1) =>
        match conditions with
        | [c] => .ok ({ sql := c }, s1)
        | cs => .ok ({ sql := "(" ++ String.intercalate " OR " cs ++ ")" }, s1)

/-- render.go renderInCondition. -/
def renderInCondition (ctx : RCtx) (left : ValueExpr) (values : List ValueExpr)
    (s : RState) : Except String (RenderResult × RState) :=
  match left with
  | .fieldRef name =>
      match ctx.schema.field name with
      | none => .error ("unknown field " ++ name)
      | some field =>
          if field.kind = .virtualAlias then
            match ctx.schema.resolveAlias name with
            | none => .error ("invalid alias " ++ name)
            | some resolved =>
                if resolved.kind = .jsonList then
                  renderAliasInList ctx name resolved values s
                else .error ("alias does not support IN(): " ++ name)
          else if field.kind = .jsonList then
            .error ("field does not support IN(); use element-in: " ++ name)
          else do
            let flat ← flattenInValues ctx values
            if flat.isEmpty then .ok (unsatRR, s)
            else
              match renderInElems ctx field flat s with
              | .error e => .error e
              | .ok (placeholders, s1) =>
                  let column := field.columnExpr ctx
                  .ok ({ sql := column ++ " IN (" ++ String.intercalate "," placeholders ++ ")" }, s1)
  | _ => do
      let vars := ctx.bindings.getD []
      let checkOk ← evalIn ctx.schema left values vars
      if checkOk then .ok (trivialRR, s) else .ok (unsatRR, s)

/-- render.go renderElementInCondition. -/
def renderElementInCondition (ctx : RCtx) (element : ValueExpr) (condField : String)
    (s : RState) : Except String (RenderResult × RState) :=
  match ctx.schema.field condField with
  | none => .error ("unknown field " ++ condField)
  | some field0 =>
      match resolveAliasField ctx condField field0 with
      | .error e => .error e
      | .ok field =>
          if field.kind ≠ .jsonList then
            .error ("field is not a JSON list: " ++ condField)
          else do
            let raw ← resolveValue ctx element
            match raw with
            | .vstr str =>
                let arrayExpr := jsonArrayExpr ctx field
                match ctx.dialect with
                | .sqlite =>
                    let (p, s1) := addArg ctx (.vstr ("%\"" ++ str ++ "\"%")) s
                    .ok ({ sql := arrayExpr ++ " LIKE " ++ p }, s1)
                | .mysql =>
                    let (p, s1) := addArg ctx (.vstr ("\"" ++ str ++ "\"")) s
                    .ok ({ sql := "JSON_CONTAINS(" ++ arrayExpr ++ ", " ++ p ++ ")" }, s1)
                | .postgres =>
                    let (p, s1) := addArg ctx (.vstr ("\"" ++ str ++ "\"")) s
                    .ok ({ sql := arrayExpr ++ " @> jsonb_build_array(" ++ p ++ "::json)" }, s1)
                | _ => .error "unsupported dialect"
            | _ => .error "list membership requires string value"

/-- render.go renderer.resolveString. -/
def resolveString (ctx : RCtx) (expr : ValueExpr) : Except String String := do
  let raw ← resolveValue ctx expr
  match raw with
  | .vstr str => .ok str
  | _ => .error "expected string value"

/-- render.go buildJSONArrayLike (the unsupported-dialect default yields
an empty expression without touching the arg state, as in the source). -/
def buildJSONArrayLike (ctx : RCtx) (arrayExpr pattern : String) (s : RState) :
    String × RState :=
  match ctx.dialect with
  | .sqlite | .mysql =>
      let (p, s1) := addArg ctx (.vstr pattern) s
      (arrayExpr ++ " LIKE " ++ p, s1)
  | .postgres =>
      let (p, s1) := addArg ctx (.vstr pattern) s
      ("(" ++ arrayExpr ++ ")::text LIKE " ++ p, s1)
  | _ => ("", s)

/-- render.go wrapWithNullCheck. -/
def wrapWithNullCheck (ctx : RCtx) (arrayExpr condition : String) : String :=
  match ctx.dialect with
  | .sqlite =>
      "(" ++ condition ++ " AND " ++ arrayExpr ++ " IS NOT NULL AND " ++ arrayExpr
        ++ " != " ++ sq ++ "[]" ++ sq ++ ")"
  | .mysql =>
      "(" ++ condition ++ " AND " ++ arrayExpr ++ " IS NOT NULL AND JSON_LENGTH("
        ++ arrayExpr ++ ") > 0)"
  | .postgres =>
      "(" ++ condition ++ " AND " ++ arrayExpr ++ " IS NOT NULL AND jsonb_array_length("
        ++ arrayExpr ++ ") > 0)"
  | _ => condition

/-- render.go renderJSONArrayStartsWith. -/
def renderJSONArrayStartsWith (ctx : RCtx) (field : Field) (pfx : String)
    (s : RState) : Except String (RenderResult × RState) :=
  let arrayExpr := jsonArrayExpr ctx field
  match ctx.dialect with
  | .sqlite | .mysql =>
      let (exactMatch, s1) := buildJSONArrayLike ctx arrayExpr ("%\"" ++ pfx ++ "\"%") s
      let (prefixMatch, s2) := buildJSONArrayLike ctx arrayExpr ("%\"" ++ pfx ++ "%") s1
      let condition := "(" ++ exactMatch ++ " OR " ++ prefixMatch ++ ")"
      .ok ({ sql := wrapWithNullCheck ctx arrayExpr condition }, s2)
  | .postgres =>
      let (p1, s1) := addArg ctx (.vstr ("\"" ++ pfx ++ "\"")) s
      let exactMatch := arrayExpr ++ " @> jsonb_build_array(" ++ p1 ++ "::json)"
      let (p2, s2) := addArg ctx (.vstr ("%\"" ++ pfx ++ "%")) s1
      let prefixMatch := "(" ++ arrayExpr ++ ")::text LIKE " ++ p2
      let condition := "(" ++ exactMatch ++ " OR " ++ prefixMatch ++ ")"
      .ok ({ sql := wrapWithNullCheck ctx arrayExpr condition }, s2)
  | _ => .error "unsupported dialect"

/-- render.go renderJSONArrayEndsWith. -/
def renderJSONArrayEndsWith (ctx : RCtx) (field : Field) (sfx : String)
    (s : RState) : Except String (RenderResult × RState) :=
  let arrayExpr := jsonArrayExpr ctx field
  let pattern := "%" ++ sfx ++ "\"%"
  let (likeExpr, s1) := buildJSONArrayLike ctx arrayExpr pattern s
  .ok ({ sql := wrapWithNullCheck ctx arrayExpr likeExpr }, s1)

/-- render.go renderJSONArrayContains. -/
def renderJSONArrayContains (ctx : RCtx) (field : Field) (sub : String)
    (s : RState) : Except String (RenderResult × RState) :=
  let arrayExpr := jsonArrayExpr ctx field
  let pattern := "%" ++ sub ++ "%"
  let (likeExpr, s1) := buildJSONArrayLike ctx arrayExpr pattern s
  .ok ({ sql := wrapWithNullCheck ctx arrayExpr likeExpr }, s1)

/-- render.go renderListComprehension (the comprehension kind is not
consulted by the renderer). -/
def renderListComprehension (ctx : RCtx) (condField : String) (pred : PredicateExpr)
    (s : RState) : Except String (RenderResult × RState) :=
  match ctx.schema.field condField with
  | none => .error ("unknown field " ++ condField)
  | some field0 =>
      match resolveAliasField ctx condField field0 with
      | .error e => .error e
      | .ok field =>
          if field.kind ≠ .jsonList then
            .error ("field is not a JSON list: " ++ condField)
          else
            match pred with
            | .startsWithPred pfxE => do
                let pfx ← resolveString ctx pfxE
                renderJSONArrayStartsWith ctx field pfx s
            | .endsWithPred sfxE => do
                let sfx ← resolveString ctx sfxE
                renderJSONArrayEndsWith ctx field sfx s
            | .containsPred subE => do
                let sub ← resolveString ctx subE
                renderJSONArrayContains ctx field sub s

/-- render.go jsonBoolPredicate. -/
def jsonBoolPredicate (ctx : RCtx) (field : Field) : Except String String :=
  let expr := jsonExtractExpr ctx field
  match ctx.dialect with
  | .sqlite => .ok (expr ++ " IS TRUE")
  | .mysql =>
      .ok ("COALESCE(" ++ expr ++ ", CAST(" ++ sq ++ "false" ++ sq
        ++ " AS JSON)) = CAST(" ++ sq ++ "true" ++ sq ++ " AS JSON)")
  | .postgres => .ok ("(" ++ expr ++ ")::boolean IS TRUE")
  | _ => .error "unsupported dialect"

/-- render.go renderFieldPredicate. -/
def renderFieldPredicate (ctx : RCtx) (condField : String) (s : RState) :
    Except String (RenderResult × RState) :=
  match ctx.schema.field condField with
  | none => .error ("unknown field " ++ condField)
  | some field0 =>
      match resolveAliasField ctx condField field0 with
      | .error e => .error e
      | .ok field =>
          match field.kind with
          | .jsonBool =>
              match jsonBoolPredicate ctx field with
              | .error e => .error e
              | .ok sql => .ok ({ sql := sql }, s)
          | _ =>
              if field.type ≠ .bool then
                .error ("field cannot be used as a predicate: " ++ condField)
              else
                let column := field.columnExpr ctx
                match ctx.dialect with
                | .sqlite => .ok ({ sql := column ++ " != 0" }, s)
                | _ => .ok ({ sql := column ++ " IS TRUE" }, s)

/-- render.go renderContainsCondition. -/
def renderContainsCondition (ctx : RCtx) (condField : String) (value : ValueExpr)
    (s : RState) : Except String (RenderResult × RState) :=
  match ctx.schema.field condField with
  | none => .error ("unknown field " ++ condField)
  | some field =>
      if field.type ≠ .string then
        .error ("field does not support contains(): " ++ condField)
      else do
        let raw ← resolveValue ctx value
        match raw with
        | .vstr needle =>
            if needle = "" then .ok (trivialRR, s)
            else
              let column := field.columnExpr ctx
              let arg := "%" ++ needle ++ "%"
              match ctx.dialect with
              | .postgres =>
                  let (p, s1) := addArg ctx (.vstr arg) s
                  .ok ({ sql := column ++ " ILIKE " ++ p }, s1)
              | _ =>
                  let (p, s1) := addArg ctx (.vstr arg) s
                  .ok ({ sql := column ++ " LIKE " ++ p }, s1)
        | _ => .error "contains() expects string value"

/-- render.go renderStartsWithCondition. -/
def renderStartsWithCondition (ctx : RCtx) (condField : String) (value : ValueExpr)
    (s : RState) : Except String (RenderResult × RState) :=
  match ctx.schema.field condField with
  | none => .error ("unknown field " ++ condField)
  | some field =>
      if field.type ≠ .string then
        .error ("field does not support startsWith(): " ++ condField)
      else do
        let raw ← resolveValue ctx value
        match raw with
        | .vstr pfx =>
            if pfx = "" then .ok (trivialRR, s)
            else
              let column := field.columnExpr ctx
              let arg := pfx ++ "%"
              match ctx.dialect with
              | .postgres =>
                  let (p, s1) := addArg ctx (.vstr arg) s
                  .ok ({ sql := column ++ " ILIKE " ++ p }, s1)
              | _ =>
                  let (p, s1) := addArg ctx (.vstr arg) s
                  .ok ({ sql := column ++ " LIKE " ++ p }, s1)
        | _ => .error "startsWith() expects string value"

/-- render.go renderEndsWithCondition. -/
def renderEndsWithCondition (ctx : RCtx) (condField : String) (value : ValueExpr)
    (s : RState) : Except String (RenderResult × RState) :=
  match ctx.schema.field condField with
  | none => .error ("unknown field " ++ condField)
  | some field =>
      if field.type ≠ .string then
        .error ("field does not support endsWith(): " ++ condField)
      else do
        let raw ← resolveValue ctx value
        match raw with
        | .vstr sfx =>
            if sfx = "" then .ok (trivialRR, s)
            else
              let column := field.columnExpr ctx
              let arg := "%" ++ sfx
              match ctx.dialect with
              | .postgres =>
                  let (p, s1) := addArg ctx (.vstr arg) s
                  .ok ({ sql := column ++ " ILIKE " ++ p }, s1)
              | _ =>
                  let (p, s1) := addArg ctx (.vstr arg) s
                  .ok ({ sql := column ++ " LIKE " ++ p }, s1)
        | _ => .error "endsWith() expects string value"

/-! ## sql() predicate template processing (render.go) -/

mutual

/-- render.go interpolateSQLColumns: replace each double-brace field
placeholder with the schema column expression for that field
(alias-resolved; only scalar / bool-column kinds are allowed). The Go
source finds the first closing brace pair with strings.Index, which the
forward scan of `interpolateAfterOpen` reproduces. -/
def interpolateSQLColumns (ctx : RCtx) : List Char → Except String String
  | '\x7b' :: '\x7b' :: rest => interpolateAfterOpen ctx [] rest
  | c :: rest =>
      match interpolateSQLColumns ctx rest with
      | .error e => .error e
      | .ok out => .ok (c.toString ++ out)
  | [] => .ok ""
termination_by cs => (cs.length, 0)

/-- Scan for the closing double brace, then emit the interpolated column
expression and continue. -/
def interpolateAfterOpen (ctx : RCtx) (inner : List Char) :
    List Char → Except String String
  | '\x7d' :: '\x7d' :: rest =>
      let name := (String.mk inner.reverse).trim
      if name = "" then .error "empty placeholder in SQL template"
      else
        match ctx.schema.field name with
        | none => .error ("unknown field in SQL template placeholder: " ++ name)
        | some field0 =>
            let fieldE : Except String Field :=
              if field0.kind = .virtualAlias then
                match ctx.schema.resolveAlias name with
                | none => .error ("invalid alias in SQL template placeholder: " ++ name)
                | some resolved => .ok resolved
              else .ok field0
            match fieldE with
            | .error e => .error e
            | .ok field =>
                match field.kind with
                | .scalar | .boolColumn =>
                    match interpolateSQLColumns ctx rest with
                    | .error e => .error e
                    | .ok out => .ok (field.columnExpr ctx ++ out)
                | _ => .error ("field kind not supported in SQL template placeholders: " ++ name)
  | c :: rest => interpolateAfterOpen ctx (c :: inner) rest
  | [] => .error "unterminated placeholder in SQL template"
termination_by cs => (cs.length, 1)

end

/-- The question-mark replacement loop of render.go
replaceSQLArgPlaceholders: each question mark consumes the next
placeholder, surplus on either side is an error. -/
def replaceQMarks : List Char → List String → Except String String
  | [], ps => if ps.isEmpty then .ok "" else .error "template has fewer question marks than args"
  | '?' :: _, [] => .error "template has more question marks than args"
  | '?' :: rest, p :: ps =>
      match replaceQMarks rest ps with
      | .error e => .error e
      | .ok out => .ok (p ++ out)
  | c :: rest, ps =>
      match replaceQMarks rest ps with
      | .error e => .error e
      | .ok out => .ok (c.toString ++ out)

/-- render.go replaceSQLArgPlaceholders. -/
def replaceSQLArgPlaceholders (template : String) (placeholders : List String) :
    Except String String :=
  if placeholders.length = 0 then
    if '?' ∈ template.data then
      .error "template contains a question mark but no args were provided"
    else .ok template
  else replaceQMarks template.data placeholders

/-- The arg loop of render.go renderSQLPredicateCondition: resolve each
predicate arg and allocate a fresh placeholder (bool args via
addBoolArg). -/
def buildSQLArgPlaceholders (ctx : RCtx) :
    List ValueExpr → RState → Except String (List String × RState)
  | [], s => .ok ([], s)
  | argE :: rest, s =>
      match resolveValue ctx argE with
      | .error e => .error e
      | .ok raw =>
          let (p, s1) :=
            match raw with
            | .vbool b => addBoolArg ctx b s
            | _ => addArg ctx raw s
          match buildSQLArgPlaceholders ctx rest s1 with
          | .error e => .error e
          | .ok (ps, s2) => .ok (p :: ps, s2)

/-- render.go renderSQLPredicateCondition. -/
def renderSQLPredicateCondition (ctx : RCtx) (name : String) (tsql : DialectSQL)
    (args : List ValueExpr) (s : RState) : Except String (RenderResult × RState) :=
  let template := tsql.template ctx.dialect
  if trimSpace template = "" then
    .error ("missing SQL template for predicate " ++ name)
  else
    match interpolateSQLColumns ctx template.data with
    | .error e => .error e
    | .ok sql0 =>
        match buildSQLArgPlaceholders ctx args s with
        | .error e => .error e
        | .ok (placeholders, s1) =>
            match replaceSQLArgPlaceholders sql0 placeholders with
            | .error e => .error ("predicate " ++ name ++ ": " ++ e)
            | .ok sql1 =>
                if trimSpace sql1 = "" then .ok (trivialRR, s1)
                else .ok ({ sql := sql1 }, s1)

/-! ## The renderer tree walk (render.go renderCondition /
renderLogicalCondition / flattenLogicalConditions) -/

mutual

/-- render.go renderCondition: dispatch on the condition variant. The
logical case renders the flattened same-operator chain (render.go
flattenLogicalConditions) left to right and combines the results. -/
def renderCondition (ctx : RCtx) (cond : Condition) (s : RState) :
    Except String (RenderResult × RState) :=
  match cond with
  | .logical op left right =>
      match renderFlatten ctx op left s with
      | .error e => .error e
      | .ok (ls, s1) =>
          match renderFlatten ctx op right s1 with
          | .error e => .error e
          | .ok (rs, s2) =>
              match op with
              | .land => .ok (combineAndAll (ls ++ rs), s2)
              | .lor => .ok (combineOrAll (ls ++ rs), s2)
  | .not expr =>
      match renderCondition ctx expr s with
      | .error e => .error e
      | .ok (child, s1) =>
          if child.trivial then .ok (unsatRR, s1)
          else if child.unsatisfiable then .ok (trivialRR, s1)
          else .ok ({ sql := "NOT (" ++ child.sql ++ ")" }, s1)
  | .fieldPred f => renderFieldPredicate ctx f s
  | .comparison l op r => renderComparison ctx l op r s
  | .inCond l values => renderInCondition ctx l values s
  | .elementIn e f => renderElementInCondition ctx e f s
  | .containsCond f v => renderContainsCondition ctx f v s
  | .startsWithCond f v => renderStartsWithCondition ctx f v s
  | .endsWithCond f v => renderEndsWithCondition ctx f v s
  | .listComp _ f _ pred => renderListComprehension ctx f pred s
  | .sqlPred name tsql args _ => renderSQLPredicateCondition ctx name tsql args s
  | .constant b => if b then .ok (trivialRR, s) else .ok (unsatRR, s)
termination_by (sizeOf cond, 0)

/-- Render the flattened same-operator chain of a condition in order
(render.go flattenLogicalConditions followed by the child-render loop
of renderLogicalCondition). -/
def renderFlatten (ctx : RCtx) (op : LogicalOp) (cond : Condition) (s : RState) :
    Except String (List RenderResult × RState) :=
  match cond with
  | .logical op2 left right =>
      if op2 = op then
        match renderFlatten ctx op left s with
        | .error e => .error e
        | .ok (ls, s1) =>
            match renderFlatten ctx op right s1 with
            | .error e => .error e
            | .ok (rs, s2) => .ok (ls ++ rs, s2)
      else
        match renderCondition ctx (.logical op2 left right) s with
        | .error e => .error e
        | .ok (r, s1) => .ok ([r], s1)
  | c =>
      match renderCondition ctx c s with
      | .error e => .error e
      | .ok (r, s1) => .ok ([r], s1)
termination_by (sizeOf cond, 1)

end

/-- render.go Render: the top-level entry point; trivial and
unsatisfiable results discard the accumulated args. -/
def Render (ctx : RCtx) (cond : Condition) : Except String Statement :=
  match renderCondition ctx cond initRState with
  | .error e => .error e
  | .ok (result, s) =>
      if result.unsatisfiable then .ok { sql := "1 = 0", args := [], namedArgs := [] }
      else if result.trivial then .ok { sql := "", args := [], namedArgs := [] }
      else .ok { sql := result.sql, args := s.args, namedArgs := s.namedArgs }

/-- engine.go RenderOptions. -/
structure RenderOptions where
  dialect : DialectName
  placeholderOffset : Nat := 0
  tableAliases : List (String × String) := []
  omitTableQualifier : Bool := false

/-- render.go newRenderer. -/
def newRenderer (schema : Schema) (opts : RenderOptions) (bindings : Option Bindings) :
    RCtx :=
  { schema := schema, dialect := opts.dialect
    placeholderOffset := opts.placeholderOffset
    tableAliases := opts.tableAliases
    omitTableQualifier := opts.omitTableQualifier
    bindings := bindings }

/-- engine.go Program: a compiled condition tied to its schema. -/
structure Program where
  schema : Schema
  condition : Condition

/-- engine.go Program.RenderSQL. -/
def Program.RenderSQL (p : Program) (bindings : Option Bindings)
    (opts : RenderOptions) : Except String Statement :=
  Render (newRenderer p.schema opts bindings) p.condition

/-- engine.go Program.IsGranted. -/
def Program.IsGranted (p : Program) (vars : Bindings) : Except String Bool :=
  EvaluateCondition p.schema p.condition vars

/-- RenderCondition (package-level helper): render a pre-built condition
tree in one shot. -/
def RenderConditionTop (schema : Schema) (cond : Condition)
    (bindings : Option Bindings) (opts : RenderOptions) : Except String Statement :=
  Render (newRenderer schema opts bindings) cond

/-- NewProgramFromCondition: wrap an already-built condition tree;
a nil condition becomes Constant(true). -/
def NewProgramFromCondition (schema : Schema) (cond : Option Condition) : Program :=
  { schema := schema, condition := cond.getD (.constant true) }

/-! ## Role/permission composer (NewFilterProgram and helpers)

The composer source is translated below. Its collaborators that are not
under src/ are abstracted: role ids are strings, the permission closure
of a role (RBAC.Get plus the inheritance walk of
permissionClosureCache) is an opaque function from role id to
permission list, and the engine compile step (CEL parsing and the
AST-to-IR builder) is an opaque function from expression text to a
condition. The in-box permission variants StdPermission and
FilterPermission both match by exact ID equality
(isExactMatchOnlyPermission covers exactly these two), so a permission
is modelled by its id together with its optional CEL expression. -/

/-- A permission as the composer sees it: the id, and the attached CEL
filter expression when the permission is a FilterPermission
(none for a plain StdPermission). -/
structure Permission where
  id : String
  cel : Option String
deriving Repr, DecidableEq

/-- permissionBuckets.match for exact-match-only permissions: the
exact-id bucket lookup returns exactly the role permissions whose id
equals the requested id, in their original order (grouping by id
preserves per-id order, and the non-exact bucket is empty). -/
def bucketsMatch (rolePerms : List Permission) (requested : Permission) :
    List Permission :=
  rolePerms.filter (fun p => p.id == requested.id)

/-- collectPermissionVariantConditions: compile each matching variant's
expression; permissions without an attached filter are allow-all. -/
def collectPermissionVariantConditions (compile : String → Except String Condition)
    (matching : List Permission) : Except String (List Condition) :=
  matching.mapM (fun p =>
    match p.cel with
    | some expr => compile expr
    | none => .ok (.constant true))

/-- andAll: left-associated AND fold (empty list is Constant(true)). -/
def andAll : List Condition → Condition
  | [] => .constant true
  | c :: cs => cs.foldl (fun out c2 => .logical .land out c2) c

/-- orAll: left-associated OR fold (empty list is Constant(false)). -/
def orAll : List Condition → Condition
  | [] => .constant false
  | c :: cs => cs.foldl (fun out c2 => .logical .lor out c2) c

/-- The required-permission loop of buildSingleRoleCondition: a required
permission with zero matches makes the role contribute nothing
(`none`), otherwise the OR over its variants is collected. -/
def buildPermConds (compile : String → Except String Condition)
    (rolePerms : List Permission) : List Permission →
    Except String (Option (List Condition))
  | [] => .ok (some [])
  | q :: rest =>
      let matching := bucketsMatch rolePerms q
      if matching.isEmpty then .ok none
      else
        match collectPermissionVariantConditions compile matching with
        | .error e => .error e
        | .ok variants =>
            match buildPermConds compile rolePerms rest with
            | .error e => .error e
            | .ok none => .ok none
            | .ok (some conds) => .ok (some (orAll variants :: conds))

/-- buildSingleRoleCondition: AND across the required permissions
(`none` when the role contributes nothing). -/
def buildSingleRoleCondition (compile : String → Except String Condition)
    (rolePerms required : List Permission) : Except String (Option Condition) :=
  match buildPermConds compile rolePerms required with
  | .error e => .error e
  | .ok none => .ok none
  | .ok (some conds) => .ok (some (andAll conds))

/-- The role loop of NewFilterProgram: skip non-contributing roles. -/
def buildRoleConds (compile : String → Except String Condition)
    (rolePermissions : String → List Permission) (required : List Permission) :
    List String → Except String (List Condition)
  | [] => .ok []
  | r :: rest =>
      match buildSingleRoleCondition compile (rolePermissions r) required with
      | .error e => .error e
      | .ok none => buildRoleConds compile rolePermissions required rest
      | .ok (some c) =>
          match buildRoleConds compile rolePermissions required rest with
          | .error e => .error e
          | .ok cs => .ok (c :: cs)

/-- NewFilterProgram: OR across contributing roles; Constant(false) when
no role contributes; error on an empty required-permission list. -/
def NewFilterProgram (compile : String → Except String Condition)
    (rolePermissions : String → List Permission) (roles : List String)
    (required : List Permission) (schema : Schema) : Except String Program :=
  if required.isEmpty then .error "permissions is empty"
  else
    match buildRoleConds compile rolePermissions required roles with
    | .error e => .error e
    | .ok roleConds =>
        if roleConds.isEmpty then
          .ok (NewProgramFromCondition schema (some (.constant false)))
        else .ok (NewProgramFromCondition schema (some (orAll roleConds)))

/-! ## Specification-side definitions

These definitions restate claim-level expectations in the spec's own
words; the theorems below compare them against the source translations
above. -/

/-- Whether an Except value is an error. -/
def isError {α : Type} : Except String α → Prop
  | .error _ => True
  | .ok _ => False

instance {α : Type} (e : Except String α) : Decidable (isError e) := by
  cases e <;> simp [isError] <;> infer_instance

/-- Spec-side: number of dollar placeholders in a postgres SQL fragment
(every placeholder the renderer emits starts with a dollar sign, and
dollar signs occur nowhere else in the claim instances). -/
def countDollars (s : String) : Nat := s.data.count '$'

/-- Spec-side: number of question-mark placeholder slots in a template. -/
def countQMarks (s : String) : Nat := s.data.count '?'

/-- Spec-side: the segments of a template between its question marks. -/
def splitQ : List Char → List String
  | [] => [""]
  | '?' :: rest => "" :: splitQ rest
  | c :: rest =>
      match splitQ rest with
      | [] => [c.toString]
      | seg :: segs => (c.toString ++ seg) :: segs

/-- Spec-side: interleave template segments with placeholder strings
(seg0 p1 seg1 p2 ... pn segn): the in-order replacement of each
question mark. -/
def weave : List String → List String → String
  | [], _ => ""
  | seg :: segs, [] => seg ++ weave segs []
  | seg :: segs, p :: ps => seg ++ p ++ weave segs ps

/-- Spec-side: the postgres placeholders freshly allocated in order
starting after `counter`, with the render offset applied:
$ (off+counter+1), $ (off+counter+2), ... -/
def pgPlaceholderList (off : Nat) : Nat → Nat → List String
  | _, 0 => []
  | c, k + 1 => ("$" ++ toString (off + (c + 1))) :: pgPlaceholderList off (c + 1) k

/-- Spec-side: the named-arg keys p(start+1) ... p(start+k). -/
def pKeys (start k : Nat) : List String :=
  (List.range k).map (fun i => "p" ++ toString (start + i + 1))

/-- Combine a list of child render results under a logical operator. -/
def combineAll (op : LogicalOp) (l : List RenderResult) : RenderResult :=
  match op with
  | .land => combineAndAll l
  | .lor => combineOrAll l

/-- Well-formedness of a render result: the trivial flag only occurs on
the canonical trivial result and the unsatisfiable flag only on the
canonical "1 = 0" result. -/
def RRWF (r : RenderResult) : Prop :=
  (r.trivial = true → r = trivialRR) ∧ (r.unsatisfiable = true → r = unsatRR)

/-- State evolution of a named-args render: positional args untouched,
namedArgs extended under consecutive pN keys, counter advanced in step. -/
def NamedExtends (s s' : RState) : Prop :=
  s'.args = s.args ∧ ∃ vs : List Val,
    s'.counter = s.counter + vs.length ∧
    s'.namedArgs = s.namedArgs ++ (pKeys s.counter vs.length).zip vs

/-- Spec-side composer (spec section 4.4): does a role contribute, i.e.
does every required permission have at least one matching variant. -/
def specContributes (rolePerms required : List Permission) : Bool :=
  required.all (fun q => !(rolePerms.filter (fun p => p.id == q.id)).isEmpty)

/-- Spec-side composer: a contributing role's condition is the AND over
required permissions of the OR over that permission's matching
variants (variants without an expression are Constant(true)). -/
def specRoleCond (compile : String → Except String Condition)
    (rolePerms required : List Permission) : Except String Condition := do
  let conds ← required.mapM (fun q => do
    let variants ← (rolePerms.filter (fun p => p.id == q.id)).mapM (fun p =>
      match p.cel with
      | some expr => compile expr
      | none => .ok (.constant true))
    pure (orAll variants))
  pure (andAll conds)

/-- The per-required-permission condition a contributing role gets: the
OR over the matching variants' compiled conditions. -/
def roleOrCond (compile : String → Except String Condition)
    (rolePerms : List Permission) (q : Permission) : Except String Condition :=
  Except.map orAll (collectPermissionVariantConditions compile (bucketsMatch rolePerms q))

/-- Spec-side composer: OR across contributing roles, Constant(false)
when no role contributes. -/
def specCompose (compile : String → Except String Condition)
    (rolePermissions : String → List Permission) (roles : List String)
    (required : List Permission) (schema : Schema) : Except String Program :=
  if required.isEmpty then .error "permissions is empty"
  else do
    let contributing := roles.filter
      (fun r => specContributes (rolePermissions r) required)
    let conds ← contributing.mapM
      (fun r => specRoleCond compile (rolePermissions r) required)
    if conds.isEmpty then
      pure (NewProgramFromCondition schema (some (.constant false)))
    else pure (NewProgramFromCondition schema (some (orAll conds)))

/-! ## Concrete fixtures used by witnesses and counterexamples -/

/-- A scalar test field on table t. -/
def testField (n : String) (t : FieldType) : Field :=
  { Field.base with
    name := n
    type := t
    column := { table := "t", name := n } }

/-- A schema with two int columns and a string column on table t. -/
def testSchema : Schema :=
  { name := "test"
    fields := [("a", testField "a" .int), ("b", testField "b" .int),
               ("name", testField "name" .string)] }

/-- The json_list field tags at payload.tags on table t. -/
def tagsField : Field :=
  { Field.base with
    name := "tags"
    kind := .jsonList
    type := .string
    column := { table := "t", name := "payload" }
    jsonPath := ["tags"] }

/-- A virtual alias field pointing at a target field. -/
def aliasField (target : String) : Field :=
  { Field.base with
    kind := .virtualAlias
    aliasFor := target }

/-- Schema exposing the reserved hierarchical alias tag over tags. -/
def tagSchema : Schema :=
  { name := "json", fields := [("tag", aliasField "tags"), ("tags", tagsField)] }

/-- Schema exposing a non-reserved alias label over tags. -/
def labelSchema : Schema :=
  { name := "json", fields := [("label", aliasField "tags"), ("tags", tagsField)] }

/-- A total compile function for composer fixtures: each expression text
becomes a field predicate on that name. -/
def compileW : String → Except String Condition := fun e => .ok (.fieldPred e)

/-- Role permission closures for composer fixtures: admin holds two read
variants (one filtered, one bare) and a filtered write; guest holds only
a bare write. -/
def rolePermsW : String → List Permission := fun r =>
  if r == "admin" then
    [{ id := "read", cel := some "f" }, { id := "read", cel := none },
     { id := "write", cel := some "g" }]
  else if r == "guest" then [{ id := "write", cel := none }]
  else []

/-- The required permissions for composer fixtures. -/
def reqRW : List Permission :=
  [{ id := "read", cel := none }, { id := "write", cel := none }]

/-- A two-comparison AND condition used by the named-args fixtures. -/
def condC4 : Condition :=
  .logical .land (.comparison (.fieldRef "a") .eq (.literal (.vint 1)))
    (.comparison (.fieldRef "b") .eq (.literal (.vint 2)))

/-- The statement the named-args dialect renders condC4 to. -/
def stmtC4 : Statement :=
  { sql := "(t.a = @p1 AND t.b = @p2)", args := []
    namedArgs := [("p1", Val.vint 1), ("p2", Val.vint 2)] }

/-- A render context over a schema with the given dialect and no
options (the configuration every RenderOptions zero value produces). -/
def mkCtx (schema : Schema) (d : DialectName) : RCtx :=
  { schema := schema, dialect := d, placeholderOffset := 0
    tableAliases := [], omitTableQualifier := false, bindings := none }

/-! ## Render-result well-formedness lemmas -/


theorem RRWF_flags {r : RenderResult} (h1 : r.trivial = false)
    (h2 : r.unsatisfiable = false) : RRWF r := by
  constructor <;> intro h <;> simp_all

theorem RRWF_trivial : RRWF trivialRR := by simp [RRWF, trivialRR, unsatRR]

theorem RRWF_unsat : RRWF unsatRR := by simp [RRWF, trivialRR, unsatRR]

theorem combineAndAll_wf (l : List RenderResult) : RRWF (combineAndAll l) := by
  unfold combineAndAll
  split
  · exact RRWF_unsat
  · next hany =>
    split
    · exact RRWF_trivial
    · next x heq =>
      have hxmem : x ∈ l.filter (fun c => !c.trivial) := by rw [heq]; simp
      have h1 : x.trivial = false := by
        have := (List.mem_filter.mp hxmem).2
        simpa using this
      have h2 : x.unsatisfiable = false := by
        have hx : x ∈ l := (List.mem_filter.mp hxmem).1
        by_contra hc
        have : l.any (fun c => c.unsatisfiable) = true :=
          List.any_eq_true.mpr ⟨x, hx, by simpa using hc⟩
        simp_all
      exact RRWF_flags h1 h2
    · exact RRWF_flags rfl rfl

theorem combineOrAll_wf (l : List RenderResult) : RRWF (combineOrAll l) := by
  unfold combineOrAll
  split
  · exact RRWF_trivial
  · next hany =>
    split
    · exact RRWF_unsat
    · next x heq =>
      have hxmem : x ∈ l.filter (fun c => !c.unsatisfiable) := by rw [heq]; simp
      have h1 : x.unsatisfiable = false := by
        have := (List.mem_filter.mp hxmem).2
        simpa using this
      have h2 : x.trivial = false := by
        have hx : x ∈ l := (List.mem_filter.mp hxmem).1
        by_contra hc
        have : l.any (fun c => c.trivial) = true :=
          List.any_eq_true.mpr ⟨x, hx, by simpa using hc⟩
        simp_all
      exact RRWF_flags h2 h1
    · exact RRWF_flags rfl rfl

theorem combineAll_wf (op : LogicalOp) (l : List RenderResult) :
    RRWF (combineAll op l) := by
  cases op
  · exact combineAndAll_wf l
  · exact combineOrAll_wf l

theorem renderFieldComparison_wf (ctx : RCtx) (f : Field) (op : CompareOp)
    (right : ValueExpr) (s : RState) :
    ∀ r s', renderFieldComparison ctx f op right s = .ok (r, s') → RRWF r := by
  intro r s' h
  unfold renderFieldComparison at h
  simp only [bind, Except.bind] at h
  repeat' split at h
  all_goals first
    | (cases h <;> first
        | exact RRWF_trivial
        | exact RRWF_unsat
        | exact RRWF_flags rfl rfl)

theorem renderJSONBoolComparison_wf (ctx : RCtx) (f : Field) (op : CompareOp)
    (right : ValueExpr) (s : RState) :
    ∀ r s', renderJSONBoolComparison ctx f op right s = .ok (r, s') → RRWF r := by
  intro r s' h
  unfold renderJSONBoolComparison at h
  simp only [bind, Except.bind] at h
  repeat' split at h
  all_goals first
    | (cases h <;> first
        | exact RRWF_trivial
        | exact RRWF_unsat
        | exact RRWF_flags rfl rfl)

theorem renderFunctionComparison_wf (ctx : RCtx) (fname : String)
    (fargs : List ValueExpr) (op : CompareOp) (right : ValueExpr) (s : RState) :
    ∀ r s', renderFunctionComparison ctx fname fargs op right s = .ok (r, s') → RRWF r := by
  intro r s' h
  unfold renderFunctionComparison at h
  simp only [bind, Except.bind] at h
  repeat' split at h
  all_goals first
    | (cases h <;> first
        | exact RRWF_trivial
        | exact RRWF_unsat
        | exact RRWF_flags rfl rfl)

theorem renderComparisonFieldLeft_wf (ctx : RCtx) (name : String) (op : CompareOp)
    (right : ValueExpr) (s : RState) :
    ∀ r s', renderComparisonFieldLeft ctx name op right s = .ok (r, s') → RRWF r := by
  intro r s' h
  unfold renderComparisonFieldLeft at h
  repeat' split at h
  all_goals first
    | (cases h <;> first
        | exact RRWF_trivial
        | exact RRWF_unsat
        | exact RRWF_flags rfl rfl)
    | exact renderJSONBoolComparison_wf _ _ _ _ _ _ _ h
    | exact renderFieldComparison_wf _ _ _ _ _ _ _ h

theorem renderComparison_wf (ctx : RCtx) (left : ValueExpr) (op : CompareOp)
    (right : ValueExpr) (s : RState) :
    ∀ r s', renderComparison ctx left op right s = .ok (r, s') → RRWF r := by
  intro r s' h
  unfold renderComparison at h
  simp only [bind, Except.bind] at h
  repeat' split at h
  all_goals first
    | (cases h <;> first
        | exact RRWF_trivial
        | exact RRWF_unsat
        | exact RRWF_flags rfl rfl)
    | exact renderComparisonFieldLeft_wf _ _ _ _ _ _ _ h
    | exact renderFunctionComparison_wf _ _ _ _ _ _ _ _ h

theorem renderAliasInList_wf (ctx : RCtx) (aliasName : String) (f : Field)
    (values : List ValueExpr) (s : RState) :
    ∀ r s', renderAliasInList ctx aliasName f values s = .ok (r, s') → RRWF r := by
  intro r s' h
  unfold renderAliasInList at h
  simp only [bind, Except.bind] at h
  repeat' split at h
  all_goals first
    | (cases h <;> first
        | exact RRWF_trivial
        | exact RRWF_unsat
        | exact RRWF_flags rfl rfl)

theorem renderInCondition_wf (ctx : RCtx) (left : ValueExpr)
    (values : List ValueExpr) (s : RState) :
    ∀ r s', renderInCondition ctx left values s = .ok (r, s') → RRWF r := by
  intro r s' h
  unfold renderInCondition at h
  simp only [bind, Except.bind] at h
  repeat' split at h
  all_goals first
    | (cases h <;> first
        | exact RRWF_trivial
        | exact RRWF_unsat
        | exact RRWF_flags rfl rfl)
    | exact renderAliasInList_wf _ _ _ _ _ _ _ h

theorem renderElementInCondition_wf (ctx : RCtx) (element : ValueExpr)
    (condField : String) (s : RState) :
    ∀ r s', renderElementInCondition ctx element condField s = .ok (r, s') → RRWF r := by
  intro r s' h
  unfold renderElementInCondition at h
  simp only [bind, Except.bind] at h
  repeat' split at h
  all_goals first
    | (cases h <;> first
        | exact RRWF_trivial
        | exact RRWF_unsat
        | exact RRWF_flags rfl rfl)

theorem renderJSONArrayStartsWith_wf (ctx : RCtx) (f : Field) (pfx : String)
    (s : RState) :
    ∀ r s', renderJSONArrayStartsWith ctx f pfx s = .ok (r, s') → RRWF r := by
  intro r s' h
  unfold renderJSONArrayStartsWith at h
  repeat' split at h
  all_goals first
    | (cases h <;> first
        | exact RRWF_trivial
        | exact RRWF_unsat
        | exact RRWF_flags rfl rfl)

theorem renderJSONArrayEndsWith_wf (ctx : RCtx) (f : Field) (sfx : String)
    (s : RState) :
    ∀ r s', renderJSONArrayEndsWith ctx f sfx s = .ok (r, s') → RRWF r := by
  intro r s' h
  unfold renderJSONArrayEndsWith at h
  repeat' split at h
  all_goals first
    | (cases h <;> first
        | exact RRWF_trivial
        | exact RRWF_unsat
        | exact RRWF_flags rfl rfl)

theorem renderJSONArrayContains_wf (ctx : RCtx) (f : Field) (sub : String)
    (s : RState) :
    ∀ r s', renderJSONArrayContains ctx f sub s = .ok (r, s') → RRWF r := by
  intro r s' h
  unfold renderJSONArrayContains at h
  repeat' split at h
  all_goals first
    | (cases h <;> first
        | exact RRWF_trivial
        | exact RRWF_unsat
        | exact RRWF_flags rfl rfl)

theorem renderListComprehension_wf (ctx : RCtx) (condField : String)
    (pred : PredicateExpr) (s : RState) :
    ∀ r s', renderListComprehension ctx condField pred s = .ok (r, s') → RRWF r := by
  intro r s' h
  unfold renderListComprehension at h
  simp only [bind, Except.bind] at h
  repeat' split at h
  all_goals first
    | (cases h <;> first
        | exact RRWF_trivial
        | exact RRWF_unsat
        | exact RRWF_flags rfl rfl)
    | exact renderJSONArrayStartsWith_wf _ _ _ _ _ _ h
    | exact renderJSONArrayEndsWith_wf _ _ _ _ _ _ h
    | exact renderJSONArrayContains_wf _ _ _ _ _ _ h

theorem renderFieldPredicate_wf (ctx : RCtx) (condField : String) (s : RState) :
    ∀ r s', renderFieldPredicate ctx condField s = .ok (r, s') → RRWF r := by
  intro r s' h
  unfold renderFieldPredicate at h
  repeat' split at h
  all_goals first
    | (cases h <;> first
        | exact RRWF_trivial
        | exact RRWF_unsat
        | exact RRWF_flags rfl rfl)

theorem renderContainsCondition_wf (ctx : RCtx) (condField : String)
    (value : ValueExpr) (s : RState) :
    ∀ r s', renderContainsCondition ctx condField value s = .ok (r, s') → RRWF r := by
  intro r s' h
  unfold renderContainsCondition at h
  simp only [bind, Except.bind] at h
  repeat' split at h
  all_goals first
    | (cases h <;> first
        | exact RRWF_trivial
        | exact RRWF_unsat
        | exact RRWF_flags rfl rfl)

theorem renderStartsWithCondition_wf (ctx : RCtx) (condField : String)
    (value : ValueExpr) (s : RState) :
    ∀ r s', renderStartsWithCondition ctx condField value s = .ok (r, s') → RRWF r := by
  intro r s' h
  unfold renderStartsWithCondition at h
  simp only [bind, Except.bind] at h
  repeat' split at h
  all_goals first
    | (cases h <;> first
        | exact RRWF_trivial
        | exact RRWF_unsat
        | exact RRWF_flags rfl rfl)

theorem renderEndsWithCondition_wf (ctx : RCtx) (condField : String)
    (value : ValueExpr) (s : RState) :
    ∀ r s', renderEndsWithCondition ctx condField value s = .ok (r, s') → RRWF r := by
  intro r s' h
  unfold renderEndsWithCondition at h
  simp only [bind, Except.bind] at h
  repeat' split at h
  all_goals first
    | (cases h <;> first
        | exact RRWF_trivial
        | exact RRWF_unsat
        | exact RRWF_flags rfl rfl)

theorem renderSQLPredicateCondition_wf (ctx : RCtx) (name : String)
    (tsql : DialectSQL) (args : List ValueExpr) (s : RState) :
    ∀ r s', renderSQLPredicateCondition ctx name tsql args s = .ok (r, s') → RRWF r := by
  intro r s' h
  unfold renderSQLPredicateCondition at h
  by_cases ht : trimSpace (tsql.template ctx.dialect) = ""
  · rw [if_pos ht] at h; cases h
  · rw [if_neg ht] at h
    repeat' split at h
    all_goals (cases h <;> first
        | exact RRWF_trivial
        | exact RRWF_unsat
        | exact RRWF_flags rfl rfl)

theorem renderCondition_wf (ctx : RCtx) (cond : Condition) (s : RState) :
    ∀ r s', renderCondition ctx cond s = .ok (r, s') → RRWF r := by
  intro r s' h
  cases cond <;> simp only [renderCondition] at h
  case logical op left right =>
    repeat' split at h
    all_goals cases h
    all_goals first
      | exact combineAndAll_wf _
      | exact combineOrAll_wf _
  case not expr =>
    repeat' split at h
    all_goals cases h
    all_goals first
      | exact RRWF_unsat
      | exact RRWF_trivial
      | exact RRWF_flags rfl rfl
  case fieldPred f => exact renderFieldPredicate_wf _ _ _ _ _ h
  case comparison l op r2 => exact renderComparison_wf _ _ _ _ _ _ _ h
  case inCond l values => exact renderInCondition_wf _ _ _ _ _ _ h
  case elementIn e f => exact renderElementInCondition_wf _ _ _ _ _ _ h
  case containsCond f v => exact renderContainsCondition_wf _ _ _ _ _ _ h
  case startsWithCond f v => exact renderStartsWithCondition_wf _ _ _ _ _ _ h
  case endsWithCond f v => exact renderEndsWithCondition_wf _ _ _ _ _ _ h
  case listComp kind f iv pred => exact renderListComprehension_wf _ _ _ _ _ _ h
  case sqlPred name tsql args evalFn => exact renderSQLPredicateCondition_wf _ _ _ _ _ _ _ h
  case constant b =>
    repeat' split at h
    all_goals cases h
    all_goals first
      | exact RRWF_trivial
      | exact RRWF_unsat

/-! ## Boolean simplification (claims C1, C2) -/


theorem combineAndAll_cons_trivial (l : List RenderResult) :
    combineAndAll (trivialRR :: l) = combineAndAll l := by
  unfold combineAndAll
  simp [trivialRR, List.any_cons, List.filter_cons]

theorem combineOrAll_cons_unsat (l : List RenderResult) :
    combineOrAll (unsatRR :: l) = combineOrAll l := by
  unfold combineOrAll
  simp [unsatRR, List.any_cons, List.filter_cons]

theorem combineAndAll_cons_unsat (l : List RenderResult) :
    combineAndAll (unsatRR :: l) = unsatRR := by
  unfold combineAndAll
  simp [unsatRR, List.any_cons]

theorem combineOrAll_cons_trivial (l : List RenderResult) :
    combineOrAll (trivialRR :: l) = trivialRR := by
  unfold combineOrAll
  simp [trivialRR, List.any_cons]

theorem combineAll_singleton (op : LogicalOp) (x : RenderResult) (hwf : RRWF x) :
    combineAll op [x] = x := by
  by_cases hu : x.unsatisfiable = true
  · rw [hwf.2 hu]
    cases op <;> simp [combineAll, combineAndAll, combineOrAll, unsatRR, trivialRR]
  · by_cases ht : x.trivial = true
    · rw [hwf.1 ht]
      cases op <;> simp [combineAll, combineAndAll, combineOrAll, unsatRR, trivialRR]
    · have hu' : x.unsatisfiable = false := by simpa using hu
      have ht' : x.trivial = false := by simpa using ht
      cases op <;> simp [combineAll, combineAndAll, combineOrAll, hu', ht']

theorem renderFlatten_spec (ctx : RCtx) (op : LogicalOp) (X : Condition) (s : RState) :
    Except.map (fun p => (combineAll op p.1, p.2)) (renderFlatten ctx op X s) =
      renderCondition ctx X s := by
  cases X
  case logical op2 l r =>
    by_cases hop : op2 = op
    · subst hop
      simp only [renderFlatten, renderCondition, if_pos rfl]
      cases hl : renderFlatten ctx op2 l s with
      | error e => simp [Except.map, hl]
      | ok p1 =>
        obtain ⟨ls, s1⟩ := p1
        cases hr : renderFlatten ctx op2 r s1 with
        | error e => simp [Except.map, hl, hr]
        | ok p2 =>
          obtain ⟨rs, s2⟩ := p2
          cases op2 <;> simp [Except.map, hl, hr, combineAll]
    · simp only [renderFlatten, if_neg hop]
      split
      · rename_i heq
        simp [Except.map, heq]
      · rename_i r1 s1 heq
        simp [Except.map, heq,
          combineAll_singleton op r1 (renderCondition_wf _ _ _ _ _ heq)]
  all_goals simp only [renderFlatten]
  all_goals split
  all_goals rename_i heq
  all_goals simp [Except.map, heq]
  all_goals exact combineAll_singleton _ _ (renderCondition_wf _ _ _ _ _ heq)



theorem renderCondition_and_true (ctx : RCtx) (X : Condition) (s : RState) :
    renderCondition ctx (.logical .land (.constant true) X) s =
      renderCondition ctx X s := by
  rw [← renderFlatten_spec ctx .land X s]
  cases hf : renderFlatten ctx .land X s with
  | error e => simp [renderCondition, renderFlatten, hf, Except.map]
  | ok p =>
    obtain ⟨rs, s2⟩ := p
    simp [renderCondition, renderFlatten, hf, Except.map, combineAll,
      combineAndAll_cons_trivial]

theorem renderCondition_or_false (ctx : RCtx) (X : Condition) (s : RState) :
    renderCondition ctx (.logical .lor (.constant false) X) s =
      renderCondition ctx X s := by
  rw [← renderFlatten_spec ctx .lor X s]
  cases hf : renderFlatten ctx .lor X s with
  | error e => simp [renderCondition, renderFlatten, hf, Except.map]
  | ok p =>
    obtain ⟨rs, s2⟩ := p
    simp [renderCondition, renderFlatten, hf, Except.map, combineAll,
      combineOrAll_cons_unsat]

theorem exists_ok_flatten_of_rc (ctx : RCtx) (op : LogicalOp) (X : Condition)
    (s : RState) (p : RenderResult × RState)
    (h : renderCondition ctx X s = .ok p) :
    ∃ q, renderFlatten ctx op X s = .ok q := by
  have hs := renderFlatten_spec ctx op X s
  cases hfe : renderFlatten ctx op X s with
  | error e =>
    rw [hfe] at hs
    simp [Except.map, h] at hs
  | ok q => exact ⟨q, rfl⟩

theorem render_and_false (ctx : RCtx) (X : Condition)
    (h : ∃ p, renderCondition ctx X initRState = .ok p) :
    Render ctx (.logical .land (.constant false) X) = .ok ⟨"1 = 0", [], []⟩ := by
  obtain ⟨p, hp⟩ := h
  obtain ⟨⟨rs, s2⟩, hf⟩ := exists_ok_flatten_of_rc ctx .land X initRState p hp
  unfold Render
  simp [renderCondition, renderFlatten, hf, List.singleton_append]
  rw [combineAndAll_cons_unsat]
  simp [unsatRR]

theorem render_or_true (ctx : RCtx) (X : Condition)
    (h : ∃ p, renderCondition ctx X initRState = .ok p) :
    Render ctx (.logical .lor (.constant true) X) = .ok ⟨"", [], []⟩ := by
  obtain ⟨p, hp⟩ := h
  obtain ⟨⟨rs, s2⟩, hf⟩ := exists_ok_flatten_of_rc ctx .lor X initRState p hp
  unfold Render
  simp [renderCondition, renderFlatten, hf, List.singleton_append]
  rw [combineOrAll_cons_trivial]
  simp [trivialRR]



/-- C1: the placeholder/arg agreement invariant fails on the render.go
under verification: rendering OR(AND(a = 1, Constant(false)), b = 2)
with the postgres dialect yields SQL "t.b = $2" containing one
placeholder while Args keeps both accumulated values, because
renderLogicalCondition renders every child into the shared arg
accumulator before combineAndAll/combineOrAll drop unsatisfiable or
trivial children; the dropped AND subtree leaves a phantom arg and the
dollar-number set is the non-contiguous set with 2 rather than
starting at offset+1. -/
theorem c1_phantom_args_failing_input :
    Render (mkCtx testSchema .postgres)
      (.logical .lor
        (.logical .land (.comparison (.fieldRef "a") .eq (.literal (.vint 1)))
          (.constant false))
        (.comparison (.fieldRef "b") .eq (.literal (.vint 2)))) =
      .ok ⟨"t.b = $2", [.vint 1, .vint 2], []⟩ ∧
    countDollars "t.b = $2" = 1 ∧
    ([Val.vint 1, Val.vint 2] : List Val).length = 2 := by
  refine ⟨?_, by decide, rfl⟩
  simp only [Render, renderCondition, renderFlatten]
  rfl

/-- C2: render(Constant true) is the empty statement, render(Constant
false) is the "1 = 0" statement, both with the internal arg accumulator
discarded; and for every condition X under fixed bindings/options,
render(AND(Constant(true), X)) equals render(X),
render(OR(Constant(false), X)) equals render(X), and whenever X itself
renders successfully, render(AND(Constant(false), X)) is the
unsatisfiable statement and render(OR(Constant(true), X)) the trivial
empty-SQL statement. -/
theorem c2_boolean_simplification :
    (∀ ctx : RCtx, Render ctx (.constant true) = .ok ⟨"", [], []⟩) ∧
    (∀ ctx : RCtx, Render ctx (.constant false) = .ok ⟨"1 = 0", [], []⟩) ∧
    (∀ (ctx : RCtx) (X : Condition),
      Render ctx (.logical .land (.constant true) X) = Render ctx X) ∧
    (∀ (ctx : RCtx) (X : Condition),
      Render ctx (.logical .lor (.constant false) X) = Render ctx X) ∧
    (∀ (ctx : RCtx) (X : Condition),
      (∃ p, renderCondition ctx X initRState = .ok p) →
      Render ctx (.logical .land (.constant false) X) = .ok ⟨"1 = 0", [], []⟩) ∧
    (∀ (ctx : RCtx) (X : Condition),
      (∃ p, renderCondition ctx X initRState = .ok p) →
      Render ctx (.logical .lor (.constant true) X) = .ok ⟨"", [], []⟩) := by
  refine ⟨?_, ?_, ?_, ?_, render_and_false, render_or_true⟩
  · intro ctx; unfold Render; simp [renderCondition, trivialRR, unsatRR]
  · intro ctx; unfold Render; simp [renderCondition, trivialRR, unsatRR]
  · intro ctx X; unfold Render; rw [renderCondition_and_true]
  · intro ctx X; unfold Render; rw [renderCondition_or_false]

/-- Witness for C2: the success hypotheses discharged at the concrete
condition a = 1 over the test schema. -/
theorem c2_boolean_simplification_witness :
    Render (mkCtx testSchema .postgres) (.logical .land (.constant false)
      (.comparison (.fieldRef "a") .eq (.literal (.vint 1)))) = .ok ⟨"1 = 0", [], []⟩ ∧
    Render (mkCtx testSchema .postgres) (.logical .lor (.constant true)
      (.comparison (.fieldRef "a") .eq (.literal (.vint 1)))) = .ok ⟨"", [], []⟩ :=
  ⟨c2_boolean_simplification.2.2.2.2.1 _ _
      ⟨({ sql := "t.a = $1" }, { counter := 1, args := [.vint 1], namedArgs := [] }),
        by simp only [renderCondition]; rfl⟩,
   c2_boolean_simplification.2.2.2.2.2 _ _
      ⟨({ sql := "t.a = $1" }, { counter := 1, args := [.vint 1], namedArgs := [] }),
        by simp only [renderCondition]; rfl⟩⟩


/-! ## Null comparisons and scalar IN (claims C6, C7) -/


/-- C6: for a comparison on a scalar field whose right operand resolves
to null, the renderer produces col IS NULL for =, col IS NOT NULL for
!=, and an error for every other operator; and the evaluator, when
either operand evaluates to null, returns the equality/inequality of
null-ness for = and != and an error for every other operator. -/
theorem c6_null_comparison :
    (∀ (ctx : RCtx) (field : Field) (op : CompareOp) (right : ValueExpr) (s : RState),
      resolveValue ctx right = .ok .vnull →
      renderFieldComparison ctx field op right s =
        match op with
        | .eq => .ok ({ sql := field.columnExpr ctx ++ " IS NULL" }, s)
        | .neq => .ok ({ sql := field.columnExpr ctx ++ " IS NOT NULL" }, s)
        | _ => .error ("operator not supported for null comparison: " ++ op.toSQL)) ∧
    (∀ (schema : Schema) (le re : ValueExpr) (op : CompareOp) (vars : Bindings)
      (lv rv : Val),
      evalValueExpr schema le vars = .ok lv →
      evalValueExpr schema re vars = .ok rv →
      (lv.isNull || rv.isNull) = true →
      evalComparison schema le op re vars =
        match op with
        | .eq => .ok (lv.isNull && rv.isNull)
        | .neq => .ok (!(lv.isNull && rv.isNull))
        | _ => .error "operator not supported for null comparison") := by
  constructor
  · intro ctx field op right s h
    unfold renderFieldComparison
    simp only [bind, Except.bind, h]
    cases op <;> simp [Val.isNull]
  · intro schema le re op vars lv rv hl hr hnull
    unfold evalComparison
    simp only [bind, Except.bind, hl, hr]
    rw [if_pos hnull]

/-- Witness for C6: the null comparison evaluated at a concrete field
and at concrete values. -/
theorem c6_null_comparison_witness :
    renderFieldComparison (mkCtx testSchema .postgres) (testField "a" .int) .eq
      (.literal .vnull) initRState = .ok ({ sql := "t.a IS NULL" }, initRState) ∧
    isError (renderFieldComparison (mkCtx testSchema .postgres) (testField "a" .int) .lt
      (.literal .vnull) initRState) ∧
    evalComparison testSchema (.literal (.vint 3)) .eq (.literal .vnull) [] = .ok false ∧
    isError (evalComparison testSchema (.literal (.vint 3)) .gt (.literal .vnull) []) := by
  refine ⟨?_, ?_, ?_, ?_⟩
  · exact c6_null_comparison.1 (mkCtx testSchema .postgres) (testField "a" .int) .eq
      (.literal .vnull) initRState rfl
  · rw [c6_null_comparison.1 (mkCtx testSchema .postgres) (testField "a" .int) .lt
      (.literal .vnull) initRState rfl]
    simp [isError]
  · exact c6_null_comparison.2 testSchema (.literal (.vint 3)) (.literal .vnull) .eq []
      (.vint 3) .vnull rfl rfl (by decide)
  · rw [c6_null_comparison.2 testSchema (.literal (.vint 3)) (.literal .vnull) .gt []
      (.vint 3) .vnull rfl rfl (by decide)]
    simp [isError]

theorem flattenInValues_vlist (ctx : RCtx) (ys : List Val) :
    flattenInValues ctx [.literal (.vlist ys)] = .ok ys := by
  simp [flattenInValues, resolveValue, toAnySlice, bind, Except.bind]

theorem flattenInValues_ints (ctx : RCtx) (ns : List Int) :
    flattenInValues ctx (ns.map (fun n => .literal (.vint n))) =
      .ok (ns.map Val.vint) := by
  induction ns with
  | nil => simp [flattenInValues]
  | cons n rest ih =>
    simp [flattenInValues, resolveValue, toAnySlice, bind, Except.bind, ih]

theorem renderInElems_sqlite_ints (ctx : RCtx) (field : Field)
    (hd : ctx.dialect = .sqlite) (ht : field.type = .int) (ns : List Int) :
    ∀ s : RState, renderInElems ctx field (ns.map Val.vint) s =
      .ok (List.replicate ns.length "?",
        { counter := s.counter + ns.length, args := s.args ++ ns.map Val.vint,
          namedArgs := s.namedArgs }) := by
  induction ns with
  | nil => intro s; simp [renderInElems]
  | cons n rest ih =>
    intro s
    simp only [List.map_cons, renderInElems, Val.isNull, ht, toInt64, addArg, hd, ih]
    simp [List.replicate_succ, List.append_assoc]
    omega

theorem flattenInValues_strs (ctx : RCtx) (xs : List String) :
    flattenInValues ctx (xs.map (fun x => .literal (.vstr x))) =
      .ok (xs.map Val.vstr) := by
  induction xs with
  | nil => simp [flattenInValues]
  | cons x rest ih =>
    simp [flattenInValues, resolveValue, toAnySlice, bind, Except.bind, ih]

theorem renderInElems_sqlite_strings (ctx : RCtx) (field : Field)
    (hd : ctx.dialect = .sqlite) (ht : field.type = .string) (xs : List String) :
    ∀ s : RState, renderInElems ctx field (xs.map Val.vstr) s =
      .ok (List.replicate xs.length "?",
        { counter := s.counter + xs.length, args := s.args ++ xs.map Val.vstr,
          namedArgs := s.namedArgs }) := by
  induction xs with
  | nil => intro s; simp [renderInElems]
  | cons x rest ih =>
    intro s
    simp only [List.map_cons, renderInElems, Val.isNull, ht, addArg, hd, ih]
    simp [List.replicate_succ, List.append_assoc]
    omega

theorem renderInElems_nullmem (ctx : RCtx) (field : Field) :
    ∀ ys : List Val, Val.vnull ∈ ys → ∀ s : RState,
      isError (renderInElems ctx field ys s) := by
  intro ys
  induction ys with
  | nil => intro h; cases h
  | cons y rest ih =>
    intro hmem s
    by_cases hy : y = Val.vnull
    · subst hy; simp [renderInElems, Val.isNull, isError]
    · have hmem' : Val.vnull ∈ rest := by
        rcases List.mem_cons.mp hmem with h | h
        · exact absurd h.symm hy
        · exact h
      have hyn : y.isNull = false := by
        cases y <;> simp_all [Val.isNull]
      simp only [renderInElems, hyn, Bool.false_eq_true, if_false]
      cases hft : field.type <;> cases y <;> simp_all [isError, toInt64]
      all_goals (
        have hne : ∀ (s2 : RState) (p : List String × RState),
            renderInElems ctx field rest s2 ≠ .ok p := fun s2 p hok => by
          have h2 := ih s2
          rw [hok] at h2
          exact h2
        split <;> rename_i heq
        · trivial
        · revert heq
          split
          · intro heq; cases heq
          · rename_i ps s2 hrec
            intro heq
            exact absurd hrec (hne _ _))



/-- C7: on a scalar field, an IN condition flattens its values (a
list-typed value expands into its elements), an empty flattened set is
the unsatisfiable fragment "1 = 0", a null flattened element fails the
render, and otherwise the result is col IN (p1,...,pn) with one fresh
placeholder and one typed argument per element in order (shown for
string-typed and for int-typed fields in the sqlite dialect, where
every placeholder is a question mark). -/
theorem c7_scalar_in_condition :
    (∀ (ctx : RCtx) (name : String) (field : Field) (s : RState) (xs : List String),
      ctx.schema.field name = some field → field.kind = .scalar →
      renderInCondition ctx (.fieldRef name) [.literal (.vlist (xs.map Val.vstr))] s =
        renderInCondition ctx (.fieldRef name) (xs.map (fun x => .literal (.vstr x))) s) ∧
    (∀ (ctx : RCtx) (name : String) (field : Field) (s : RState),
      ctx.schema.field name = some field → field.kind = .scalar →
      renderInCondition ctx (.fieldRef name) [.literal (.vlist [])] s = .ok (unsatRR, s)) ∧
    (∀ (ctx : RCtx) (name : String) (field : Field) (s : RState) (ys : List Val),
      ctx.schema.field name = some field → field.kind = .scalar → Val.vnull ∈ ys →
      isError (renderInCondition ctx (.fieldRef name) [.literal (.vlist ys)] s)) ∧
    (∀ (ctx : RCtx) (name : String) (field : Field) (s : RState) (xs : List String),
      ctx.schema.field name = some field → field.kind = .scalar →
      ctx.dialect = .sqlite → field.type = .string → xs ≠ [] →
      renderInCondition ctx (.fieldRef name) (xs.map (fun x => .literal (.vstr x))) s =
        .ok ({ sql := field.columnExpr ctx ++ " IN (" ++
                String.intercalate "," (List.replicate xs.length "?") ++ ")" },
          { counter := s.counter + xs.length, args := s.args ++ xs.map Val.vstr,
            namedArgs := s.namedArgs })) ∧
    (∀ (ctx : RCtx) (name : String) (field : Field) (s : RState) (ns : List Int),
      ctx.schema.field name = some field → field.kind = .scalar →
      ctx.dialect = .sqlite → field.type = .int → ns ≠ [] →
      renderInCondition ctx (.fieldRef name) (ns.map (fun n => .literal (.vint n))) s =
        .ok ({ sql := field.columnExpr ctx ++ " IN (" ++
                String.intercalate "," (List.replicate ns.length "?") ++ ")" },
          { counter := s.counter + ns.length, args := s.args ++ ns.map Val.vint,
            namedArgs := s.namedArgs })) := by
  refine ⟨?_, ?_, ?_, ?_, ?_⟩
  · intro ctx name field s xs hlook hkind
    unfold renderInCondition
    simp [hlook, hkind, flattenInValues_vlist, flattenInValues_strs, bind, Except.bind]
  · intro ctx name field s hlook hkind
    unfold renderInCondition
    simp [hlook, hkind, flattenInValues_vlist, bind, Except.bind]
  · intro ctx name field s ys hlook hkind hmem
    have hne : ys ≠ [] := by intro h; subst h; cases hmem
    unfold renderInCondition
    simp only [hlook, hkind, flattenInValues_vlist, bind, Except.bind]
    simp [hne, List.isEmpty_iff]
    have herr := renderInElems_nullmem ctx field ys hmem s
    cases hrec : renderInElems ctx field ys s with
    | error e => simp [isError]
    | ok p => rw [hrec] at herr; simp [isError] at herr
  · intro ctx name field s xs hlook hkind hd ht hne
    unfold renderInCondition
    simp only [hlook, hkind, flattenInValues_strs, bind, Except.bind]
    simp [hne, List.isEmpty_iff, renderInElems_sqlite_strings ctx field hd ht xs s]
  · intro ctx name field s ns hlook hkind hd ht hne
    unfold renderInCondition
    simp only [hlook, hkind, flattenInValues_ints, bind, Except.bind]
    simp [hne, List.isEmpty_iff, renderInElems_sqlite_ints ctx field hd ht ns s]



/-- Witness for C7: the four behaviors at concrete inputs over the test
schema (string field name, int field a, sqlite dialect). -/
theorem c7_scalar_in_condition_witness :
    renderInCondition (mkCtx testSchema .sqlite) (.fieldRef "name")
      [.literal (.vlist [.vstr "A", .vstr "B"])] initRState =
      renderInCondition (mkCtx testSchema .sqlite) (.fieldRef "name")
        [.literal (.vstr "A"), .literal (.vstr "B")] initRState ∧
    renderInCondition (mkCtx testSchema .sqlite) (.fieldRef "name")
      [.literal (.vlist [])] initRState = .ok (unsatRR, initRState) ∧
    isError (renderInCondition (mkCtx testSchema .sqlite) (.fieldRef "name")
      [.literal (.vlist [.vstr "A", .vnull])] initRState) ∧
    renderInCondition (mkCtx testSchema .sqlite) (.fieldRef "name")
      [.literal (.vstr "A"), .literal (.vstr "B")] initRState =
      .ok ({ sql := "`t`.`name` IN (?,?)" },
        { counter := 2, args := [.vstr "A", .vstr "B"], namedArgs := [] }) ∧
    renderInCondition (mkCtx testSchema .sqlite) (.fieldRef "a")
      [.literal (.vint 1), .literal (.vint 2)] initRState =
      .ok ({ sql := "`t`.`a` IN (?,?)" },
        { counter := 2, args := [.vint 1, .vint 2], namedArgs := [] }) := by
  refine ⟨?_, ?_, ?_, ?_, ?_⟩
  · exact c7_scalar_in_condition.1 (mkCtx testSchema .sqlite) "name"
      (testField "name" .string) initRState ["A", "B"] rfl rfl
  · exact c7_scalar_in_condition.2.1 (mkCtx testSchema .sqlite) "name"
      (testField "name" .string) initRState rfl rfl
  · exact c7_scalar_in_condition.2.2.1 (mkCtx testSchema .sqlite) "name"
      (testField "name" .string) initRState [.vstr "A", .vnull] rfl rfl
      (by simp)
  · exact c7_scalar_in_condition.2.2.2.1 (mkCtx testSchema .sqlite) "name"
      (testField "name" .string) initRState ["A", "B"] rfl rfl rfl rfl (by simp)
  · exact c7_scalar_in_condition.2.2.2.2 (mkCtx testSchema .sqlite) "a"
      (testField "a" .int) initRState [1, 2] rfl rfl rfl rfl (by simp)


/-! ## sql() predicate templates (claim C8) -/


theorem char_cons_mk (c : Char) (l : List Char) :
    c.toString ++ String.mk l = String.mk (c :: l) := rfl

theorem countq_cons_q (l : List Char) : ('?'::l).count '?' = l.count '?' + 1 := by
  simp [List.count_cons]

theorem countq_cons_nq (c : Char) (l : List Char) (h : ¬c = '?') :
    (c::l).count '?' = l.count '?' := by
  simp [List.count_cons, h]

theorem splitQ_ne_nil (cs : List Char) : splitQ cs ≠ [] := by
  cases cs with
  | nil => simp [splitQ]
  | cons c rest =>
    by_cases hc : c = '?'
    · subst hc; simp [splitQ]
    · simp only [splitQ, hc]
      split <;> simp_all [splitQ]

theorem splitQ_length (cs : List Char) : (splitQ cs).length = cs.count '?' + 1 := by
  induction cs with
  | nil => simp [splitQ]
  | cons c rest ih =>
    by_cases hc : c = '?'
    · subst hc; rw [countq_cons_q]; simp [splitQ, ih]
    · rw [countq_cons_nq c rest hc]
      simp only [splitQ]
      split
      · simp_all
      · rename_i seg segs hs
        rw [hs] at ih
        simp_all

theorem splitQ_no_q (cs : List Char) (h : cs.count '?' = 0) :
    splitQ cs = [String.mk cs] := by
  induction cs with
  | nil => simp [splitQ]
  | cons c rest ih =>
    have hc : ¬c = '?' := by
      intro he; subst he; rw [countq_cons_q] at h; omega
    rw [countq_cons_nq c rest hc] at h
    simp only [splitQ, hc, ih h]
    simp [char_cons_mk]

theorem weave_pull (x seg : String) (segs ps : List String) :
    weave ((x ++ seg) :: segs) ps = x ++ weave (seg :: segs) ps := by
  cases ps <;> simp [weave, String.append_assoc]

theorem replaceQMarks_ok (cs : List Char) :
    ∀ ps : List String, cs.count '?' = ps.length →
    replaceQMarks cs ps = .ok (weave (splitQ cs) ps) := by
  induction cs with
  | nil =>
    intro ps hc
    cases ps with
    | cons p ps' => simp at hc
    | nil => simp [replaceQMarks, splitQ, weave]
  | cons c rest ih =>
    intro ps hc
    by_cases hq : c = '?'
    · subst hq
      rw [countq_cons_q] at hc
      cases ps with
      | nil => simp at hc
      | cons p ps' =>
        simp only [List.length_cons] at hc
        have hc' : rest.count '?' = ps'.length := by omega
        simp [replaceQMarks, splitQ, weave, ih ps' hc']
    · rw [countq_cons_nq c rest hq] at hc
      rw [replaceQMarks.eq_4 ps c rest (fun h _ => hq h) (fun _ _ h _ => hq h)]
      rw [ih ps hc]
      cases hs : splitQ rest with
      | nil => exact absurd hs (splitQ_ne_nil rest)
      | cons seg segs =>
        simp only [splitQ, hq, hs]
        rw [weave_pull]

theorem replaceQMarks_err (cs : List Char) :
    ∀ ps : List String, cs.count '?' ≠ ps.length →
    isError (replaceQMarks cs ps) := by
  induction cs with
  | nil =>
    intro ps hc
    cases ps with
    | nil => simp at hc
    | cons p ps' => simp [replaceQMarks, isError]
  | cons c rest ih =>
    intro ps hc
    by_cases hq : c = '?'
    · subst hq
      rw [countq_cons_q] at hc
      cases ps with
      | nil => simp [replaceQMarks, isError]
      | cons p ps' =>
        simp only [List.length_cons] at hc
        have hd : rest.count '?' ≠ ps'.length := by omega
        have := ih ps' hd
        simp only [replaceQMarks]
        cases hr : replaceQMarks rest ps' with
        | error e => simp [isError]
        | ok out => rw [hr] at this; simp [isError] at this
    · rw [countq_cons_nq c rest hq] at hc
      have := ih ps hc
      rw [replaceQMarks.eq_4 ps c rest (fun h _ => hq h) (fun _ _ h _ => hq h)]
      cases hr : replaceQMarks rest ps with
      | error e => simp [isError]
      | ok out => rw [hr] at this; simp [isError] at this

/-- Characterization of render.go replaceSQLArgPlaceholders: success
exactly when the question-mark count equals the placeholder count, and
then each question mark is replaced in left-to-right order (the weave of
the template segments with the placeholders). -/
theorem replaceSQLArgPlaceholders_spec (template : String) (ps : List String) :
    (countQMarks template = ps.length →
      replaceSQLArgPlaceholders template ps =
        .ok (weave (splitQ template.data) ps)) ∧
    (countQMarks template ≠ ps.length →
      isError (replaceSQLArgPlaceholders template ps)) := by
  constructor
  · intro hc
    unfold replaceSQLArgPlaceholders
    cases ps with
    | nil =>
      simp only [List.length_nil, if_pos rfl]
      unfold countQMarks at hc
      simp only [List.length_nil] at hc
      have hnm : '?' ∉ template.data := by
        intro hmem
        rw [← List.count_pos_iff] at hmem
        omega
      rw [if_neg hnm]
      simp [splitQ_no_q template.data hc, weave]
    | cons p ps' =>
      rw [if_neg (by simp)]
      exact replaceQMarks_ok template.data _ hc
  · intro hc
    unfold replaceSQLArgPlaceholders
    cases ps with
    | nil =>
      simp only [List.length_nil, if_pos rfl]
      unfold countQMarks at hc
      simp only [List.length_nil] at hc
      have hmem : '?' ∈ template.data := by
        rw [← List.count_pos_iff]
        omega
      rw [if_pos hmem]
      simp [isError]
    | cons p ps' =>
      rw [if_neg (by simp)]
      exact replaceQMarks_err template.data _ hc



theorem interpolate_no_brace (ctx : RCtx) :
    ∀ cs : List Char, '\x7b' ∉ cs →
      interpolateSQLColumns ctx cs = .ok (String.mk cs) := by
  intro cs
  induction cs with
  | nil =>
    intro h
    rw [interpolateSQLColumns.eq_3]
  | cons c rest ih =>
    intro hmem
    have hc : ¬c = '\x7b' := fun he => hmem (by simp [he])
    have hr : '\x7b' ∉ rest := fun hm => hmem (List.mem_cons_of_mem _ hm)
    rw [interpolateSQLColumns.eq_2 ctx c rest (fun _ h _ => hc h)]
    rw [ih hr]
    rfl

theorem buildSQLArgPlaceholders_pg_ints (ctx : RCtx) (hd : ctx.dialect = .postgres) :
    ∀ (vs : List Int) (s : RState),
      buildSQLArgPlaceholders ctx (vs.map (fun n => .literal (.vint n))) s =
        .ok (pgPlaceholderList ctx.placeholderOffset s.counter vs.length,
          { counter := s.counter + vs.length, args := s.args ++ vs.map Val.vint,
            namedArgs := s.namedArgs }) := by
  intro vs
  induction vs with
  | nil => intro s; simp [buildSQLArgPlaceholders, pgPlaceholderList]
  | cons v rest ih =>
    intro s
    simp only [List.map_cons, buildSQLArgPlaceholders, resolveValue, addArg, hd, ih]
    simp [pgPlaceholderList, List.append_assoc]
    omega



theorem pgPlaceholderList_length (off : Nat) :
    ∀ (c k : Nat), (pgPlaceholderList off c k).length = k := by
  intro c k
  induction k generalizing c with
  | zero => simp [pgPlaceholderList]
  | succ k ih => simp [pgPlaceholderList, ih]

/-- C8: each question mark of a registered sql() predicate template is
replaced in left-to-right order by a freshly allocated placeholder (one
per resolved arg, numbered consecutively for postgres), and rendering
fails whenever the number of question marks differs from the number of
args in either direction, including a template containing a question
mark with no args. -/
theorem c8_sql_placeholder_replacement :
    (∀ (template : String) (ps : List String),
      (countQMarks template = ps.length →
        replaceSQLArgPlaceholders template ps =
          .ok (weave (splitQ template.data) ps)) ∧
      (countQMarks template ≠ ps.length →
        isError (replaceSQLArgPlaceholders template ps))) ∧
    (∀ (ctx : RCtx) (name : String) (tsql : DialectSQL) (vs : List Int) (s : RState),
      ctx.dialect = .postgres →
      trimSpace (tsql.template ctx.dialect) ≠ "" →
      '\x7b' ∉ (tsql.template ctx.dialect).data →
      (countQMarks (tsql.template ctx.dialect) = vs.length →
        renderSQLPredicateCondition ctx name tsql (vs.map (fun n => .literal (.vint n))) s =
          .ok ((if trimSpace (weave (splitQ (tsql.template ctx.dialect).data)
                    (pgPlaceholderList ctx.placeholderOffset s.counter vs.length)) = ""
                then trivialRR
                else { sql := weave (splitQ (tsql.template ctx.dialect).data)
                        (pgPlaceholderList ctx.placeholderOffset s.counter vs.length) }),
            { counter := s.counter + vs.length, args := s.args ++ vs.map Val.vint,
              namedArgs := s.namedArgs })) ∧
      (countQMarks (tsql.template ctx.dialect) ≠ vs.length →
        isError (renderSQLPredicateCondition ctx name tsql
          (vs.map (fun n => .literal (.vint n))) s))) := by
  refine ⟨replaceSQLArgPlaceholders_spec, ?_⟩
  intro ctx name tsql vs s hdial htrim hbrace
  constructor
  · intro hcount
    have hcount' : countQMarks (String.mk (tsql.template ctx.dialect).data) =
        (pgPlaceholderList ctx.placeholderOffset s.counter vs.length).length := by
      rw [pgPlaceholderList_length]
      exact hcount
    simp only [renderSQLPredicateCondition, if_neg htrim,
      interpolate_no_brace ctx _ hbrace, buildSQLArgPlaceholders_pg_ints ctx hdial vs s,
      (replaceSQLArgPlaceholders_spec _ _).1 hcount']
    split <;> rfl
  · intro hcount
    have hcount' : countQMarks (String.mk (tsql.template ctx.dialect).data) ≠
        (pgPlaceholderList ctx.placeholderOffset s.counter vs.length).length := by
      rw [pgPlaceholderList_length]
      exact hcount
    have herr := (replaceSQLArgPlaceholders_spec (String.mk (tsql.template ctx.dialect).data)
      (pgPlaceholderList ctx.placeholderOffset s.counter vs.length)).2 hcount'
    simp only [renderSQLPredicateCondition, if_neg htrim,
      interpolate_no_brace ctx _ hbrace, buildSQLArgPlaceholders_pg_ints ctx hdial vs s]
    cases hrep : replaceSQLArgPlaceholders (String.mk (tsql.template ctx.dialect).data)
        (pgPlaceholderList ctx.placeholderOffset s.counter vs.length) with
    | error e => simp [hrep, isError]
    | ok out => rw [hrep] at herr; simp [isError] at herr

/-- Witness for C8: the two-arg template x = ? AND y = ? renders with
$1 and $2 in order; with a single arg, or with an arg surplus, the
render fails. -/
theorem c8_sql_placeholder_replacement_witness :
    renderSQLPredicateCondition (mkCtx testSchema .postgres) "pm"
      { Default := "x = ? AND y = ?", SQLite := "", MySQL := "", Postgres := "" }
      [.literal (.vint 5), .literal (.vint 6)] initRState =
      .ok ({ sql := "x = $1 AND y = $2" },
        { counter := 2, args := [.vint 5, .vint 6], namedArgs := [] }) ∧
    isError (renderSQLPredicateCondition (mkCtx testSchema .postgres) "pm"
      { Default := "x = ? AND y = ?", SQLite := "", MySQL := "", Postgres := "" }
      [.literal (.vint 5)] initRState) ∧
    isError (replaceSQLArgPlaceholders "no slots" ["$1"]) := by
  refine ⟨?_, ?_, ?_⟩
  · have h := ((c8_sql_placeholder_replacement.2 (mkCtx testSchema .postgres) "pm"
      { Default := "x = ? AND y = ?", SQLite := "", MySQL := "", Postgres := "" }
      [5, 6] initRState rfl (by decide) (by decide)).1 (by decide))
    exact h.trans (by rfl)
  · exact (c8_sql_placeholder_replacement.2 (mkCtx testSchema .postgres) "pm"
      { Default := "x = ? AND y = ?", SQLite := "", MySQL := "", Postgres := "" }
      [5] initRState rfl (by decide) (by decide)).2 (by decide)
  · exact (c8_sql_placeholder_replacement.1 "no slots" ["$1"]).2 (by decide)


end Gorbac

namespace Gorbac

theorem renderAliasInElems_sqlite (ctx : RCtx) (hd : ctx.dialect = .sqlite)
    (aliasName arrayExpr : String) (hier : Bool) (xs : List String) :
    ∀ s : RState, renderAliasInElems ctx aliasName arrayExpr hier (xs.map Val.vstr) s =
      .ok (xs.map (fun _ =>
          if hier then
            "(" ++ arrayExpr ++ " LIKE ? OR " ++ arrayExpr ++ " LIKE ?)"
          else arrayExpr ++ " LIKE ?"),
        { counter := s.counter + (if hier then 2 else 1) * xs.length,
          args := s.args ++ xs.flatMap (fun x =>
            if hier then
              [Val.vstr ("%\"" ++ x ++ "\"%"), Val.vstr ("%\"" ++ x ++ "/%")]
            else [Val.vstr ("%\"" ++ x ++ "\"%")]),
          namedArgs := s.namedArgs }) := by
  induction xs with
  | nil => intro s; simp [renderAliasInElems]
  | cons x rest ih =>
    intro s
    cases hier <;>
      simp [renderAliasInElems, Val.isNull, addArg, hd, ih, List.append_assoc] <;>
      refine ⟨?_, by omega⟩ <;>
      simp [String.append_assoc]

theorem evalFlattenValues_strs (schema : Schema) (vars : Bindings) (cands : List String) :
    evalFlattenValues schema vars (cands.map (fun c => .literal (.vstr c))) =
      .ok (cands.map Val.vstr) := by
  induction cands with
  | nil => simp [evalFlattenValues]
  | cons c rest ih =>
    simp [evalFlattenValues, evalValueExpr, toAnySlice, bind, Except.bind, ih]

theorem evalAliasCands_strs (hier : Bool) (itemStr : String) (cands : List String) :
    evalAliasCands hier itemStr (cands.map Val.vstr) =
      .ok (cands.any (fun c =>
        itemStr == c || (hier && hasPfx (c ++ "/") itemStr))) := by
  induction cands with
  | nil => simp [evalAliasCands]
  | cons c rest ih =>
    simp only [List.map_cons, evalAliasCands]
    by_cases he : (itemStr == c) = true
    · rw [if_pos he]
      simp [List.any_cons, he]
    · rw [if_neg he]
      have he2 : (itemStr == c) = false := by simpa using he
      by_cases hp : (hier && hasPfx (c ++ "/") itemStr) = true
      · rw [if_pos hp]
        simp [List.any_cons, he2, hp]
      · rw [if_neg hp]
        have hp2 : (hier && hasPfx (c ++ "/") itemStr) = false := by simpa using hp
        simp [List.any_cons, he2, hp2, ih]

theorem evalAliasItems_strs (hier : Bool) (cands : List String) (items : List String) :
    evalAliasItems hier (cands.map Val.vstr) (items.map Val.vstr) =
      .ok (items.any (fun it => cands.any (fun c =>
        it == c || (hier && hasPfx (c ++ "/") it)))) := by
  induction items with
  | nil => simp [evalAliasItems]
  | cons it rest ih =>
    simp only [List.map_cons, evalAliasItems, evalAliasCands_strs]
    cases hb : cands.any (fun c => it == c || (hier && hasPfx (c ++ "/") it)) <;>
      simp [ih, List.any_cons, hb]

theorem renderAliasInList_sqlite_single (ctx : RCtx) (hd : ctx.dialect = .sqlite)
    (aliasName : String) (field : Field) (x : String) (s : RState) :
    renderAliasInList ctx aliasName field [.literal (.vstr x)] s =
      .ok ({ sql :=
          if aliasName == "tag" then
            "(" ++ jsonArrayExpr ctx field ++ " LIKE ? OR "
              ++ jsonArrayExpr ctx field ++ " LIKE ?)"
          else jsonArrayExpr ctx field ++ " LIKE ?" },
        { counter := s.counter + (if aliasName == "tag" then 2 else 1),
          args := s.args ++ (if aliasName == "tag" then
              [Val.vstr ("%\"" ++ x ++ "\"%"), Val.vstr ("%\"" ++ x ++ "/%")]
            else [Val.vstr ("%\"" ++ x ++ "\"%")]),
          namedArgs := s.namedArgs }) := by
  have hflat : flattenInValues ctx [.literal (.vstr x)] = .ok [Val.vstr x] := by
    simp [flattenInValues, resolveValue, toAnySlice, bind, Except.bind]
  have helems := renderAliasInElems_sqlite ctx hd aliasName (jsonArrayExpr ctx field)
    (aliasName == "tag") [x] s
  unfold renderAliasInList
  rw [hflat]
  simp only [bind, Except.bind, List.isEmpty_cons, Bool.false_eq_true, if_false]
  rw [show ([Val.vstr x] : List Val) = ([x] : List String).map Val.vstr from rfl, helems]
  cases hb : aliasName == "tag" <;>
    simp [hb, String.append_assoc]

/-- C5: for an IN over a virtual alias on a json_list field, the renderer
(sqlite shown) emits for every string value x an exact-membership LIKE with
argument %"x"% and, exactly when the alias identifier is the reserved name
tag, an additional OR-ed prefix LIKE with argument %"x/% (elements starting
with x/); renderAliasInList wires hierarchical := (alias == "tag") and
assembles the fragments; and the evaluator mirrors this: an item of the
bound list matches a candidate x exactly when item = x or (only for the
alias name tag) x ++ "/" is a prefix of the item. -/
theorem c5_hierarchical_tag_alias :
    (∀ (ctx : RCtx) (aliasName arrayExpr : String) (xs : List String) (s : RState),
      ctx.dialect = .sqlite →
      renderAliasInElems ctx aliasName arrayExpr (aliasName == "tag") (xs.map Val.vstr) s =
        .ok (xs.map (fun _ =>
            if aliasName == "tag" then
              "(" ++ arrayExpr ++ " LIKE ? OR " ++ arrayExpr ++ " LIKE ?)"
            else arrayExpr ++ " LIKE ?"),
          { counter := s.counter + (if aliasName == "tag" then 2 else 1) * xs.length
            args := s.args ++ xs.flatMap (fun x =>
              if aliasName == "tag" then
                [Val.vstr ("%\"" ++ x ++ "\"%"), Val.vstr ("%\"" ++ x ++ "/%")]
              else [Val.vstr ("%\"" ++ x ++ "\"%")])
            namedArgs := s.namedArgs })) ∧
    (∀ (ctx : RCtx) (aliasName : String) (field : Field) (x : String) (s : RState),
      ctx.dialect = .sqlite →
      renderAliasInList ctx aliasName field [.literal (.vstr x)] s =
        .ok ({ sql :=
            if aliasName == "tag" then
              "(" ++ jsonArrayExpr ctx field ++ " LIKE ? OR "
                ++ jsonArrayExpr ctx field ++ " LIKE ?)"
            else jsonArrayExpr ctx field ++ " LIKE ?" },
          { counter := s.counter + (if aliasName == "tag" then 2 else 1)
            args := s.args ++ (if aliasName == "tag" then
                [Val.vstr ("%\"" ++ x ++ "\"%"), Val.vstr ("%\"" ++ x ++ "/%")]
              else [Val.vstr ("%\"" ++ x ++ "\"%")])
            namedArgs := s.namedArgs })) ∧
    (∀ (schema : Schema) (af resolved : Field) (aliasName : String)
        (items cands : List String) (vars : Bindings),
      schema.field aliasName = some af → af.kind = .virtualAlias →
      schema.resolveAlias aliasName = some resolved → resolved.kind = .jsonList →
      vars.lookup resolved.name = some (.vlist (items.map Val.vstr)) →
      evalIn schema (.fieldRef aliasName) (cands.map (fun c => .literal (.vstr c))) vars =
        .ok (items.any (fun it => cands.any (fun c =>
          it == c || ((aliasName == "tag") && hasPfx (c ++ "/") it))))) := by
  refine ⟨?_, ?_, ?_⟩
  · intro ctx aliasName arrayExpr xs s hd
    exact renderAliasInElems_sqlite ctx hd aliasName arrayExpr (aliasName == "tag") xs s
  · intro ctx aliasName field x s hd
    exact renderAliasInList_sqlite_single ctx hd aliasName field x s
  · intro schema af resolved aliasName items cands vars hf hk hr hjk hl
    simp only [evalIn, hf, hk, if_true, hr, hjk, evalInAlias, hl, Val.isNull,
      toAnySlice, bind, Except.bind, evalFlattenValues_strs]
    exact evalAliasItems_strs (aliasName == "tag") cands items

theorem c5_hierarchical_tag_alias_witness :
    renderAliasInElems (mkCtx tagSchema .sqlite) "tag" "A" true
        [Val.vstr "a"] initRState =
      .ok (["(A LIKE ? OR A LIKE ?)"],
        { counter := 2, args := [.vstr "%\"a\"%", .vstr "%\"a/%"], namedArgs := [] }) ∧
    renderAliasInList (mkCtx tagSchema .sqlite) "tag" tagsField
        [.literal (.vstr "a")] initRState =
      .ok ({ sql := "(" ++ jsonArrayExpr (mkCtx tagSchema .sqlite) tagsField
              ++ " LIKE ? OR " ++ jsonArrayExpr (mkCtx tagSchema .sqlite) tagsField
              ++ " LIKE ?)" },
        { counter := 2, args := [.vstr "%\"a\"%", .vstr "%\"a/%"], namedArgs := [] }) ∧
    renderAliasInList (mkCtx labelSchema .sqlite) "label" tagsField
        [.literal (.vstr "a")] initRState =
      .ok ({ sql := jsonArrayExpr (mkCtx labelSchema .sqlite) tagsField ++ " LIKE ?" },
        { counter := 1, args := [.vstr "%\"a\"%"], namedArgs := [] }) ∧
    evalIn tagSchema (.fieldRef "tag") [.literal (.vstr "x")]
        [("tags", .vlist [.vstr "x/y"])] = .ok true ∧
    evalIn labelSchema (.fieldRef "label") [.literal (.vstr "x")]
        [("tags", .vlist [.vstr "x/y"])] = .ok false := by
  obtain ⟨h1, h2, h3⟩ := c5_hierarchical_tag_alias
  refine ⟨?_, ?_, ?_, ?_, ?_⟩
  · exact (h1 (mkCtx tagSchema .sqlite) "tag" "A" ["a"] initRState rfl).trans (by rfl)
  · exact (h2 (mkCtx tagSchema .sqlite) "tag" tagsField "a" initRState rfl).trans (by rfl)
  · exact (h2 (mkCtx labelSchema .sqlite) "label" tagsField "a" initRState rfl).trans (by rfl)
  · exact (h3 tagSchema (aliasField "tags") tagsField "tag" ["x/y"] ["x"]
      [("tags", .vlist [.vstr "x/y"])] rfl rfl rfl rfl rfl).trans
      (congrArg Except.ok (by decide))
  · exact (h3 labelSchema (aliasField "tags") tagsField "label" ["x/y"] ["x"]
      [("tags", .vlist [.vstr "x/y"])] rfl rfl rfl rfl rfl).trans
      (congrArg Except.ok (by decide))

end Gorbac

namespace Gorbac

/-- C10: NewProgramFromCondition with a nil condition stores
Constant(true), so IsGranted answers true without error for every vars
map, and RenderSQL yields the trivial empty statement for every
bindings and render options. -/
theorem c10_nil_condition_allow_all :
    (∀ schema : Schema,
      (NewProgramFromCondition schema none).condition = .constant true) ∧
    (∀ (schema : Schema) (vars : Bindings),
      (NewProgramFromCondition schema none).IsGranted vars = .ok true) ∧
    (∀ (schema : Schema) (bindings : Option Bindings) (opts : RenderOptions),
      (NewProgramFromCondition schema none).RenderSQL bindings opts =
        .ok { sql := "", args := [], namedArgs := [] }) := by
  refine ⟨fun _ => rfl, fun _ _ => rfl, fun schema bindings opts => ?_⟩
  simp only [Program.RenderSQL, NewProgramFromCondition, Option.getD, Render,
    renderCondition]
  rfl

end Gorbac

namespace Gorbac

/-- C3: qualifyColumn (modelled from the spec, the renderer support being
missing from src/) maps a column of table T to Q.name when tableAliases
maps T to a non-empty Q, to the bare name when T maps to the empty string,
to the bare name for every column when omitTableQualifier is set, and to
the original T.name qualification when T is unmapped; every rendered
column goes through it, as shown end to end by a scalar comparison render
over arbitrary tableAliases / omitTableQualifier options. -/
theorem c3_table_alias_qualification :
    (∀ (ctx : RCtx) (col : Column) (q : String),
      ctx.omitTableQualifier = false →
      ctx.tableAliases.lookup col.table = some q → q ≠ "" →
      qualifyColumn ctx col = qualifyWithTable ctx.dialect q col.name) ∧
    (∀ (ctx : RCtx) (col : Column),
      ctx.omitTableQualifier = false →
      ctx.tableAliases.lookup col.table = some "" →
      qualifyColumn ctx col = col.name) ∧
    (∀ (ctx : RCtx) (col : Column),
      ctx.omitTableQualifier = true → qualifyColumn ctx col = col.name) ∧
    (∀ (ctx : RCtx) (col : Column),
      ctx.omitTableQualifier = false →
      ctx.tableAliases.lookup col.table = none →
      qualifyColumn ctx col = qualifyWithTable ctx.dialect col.table col.name) ∧
    (∀ (aliases : List (String × String)) (om : Bool),
      RenderConditionTop testSchema
          (.comparison (.fieldRef "a") .eq (.literal (.vint 1))) none
          { dialect := .sqlite, tableAliases := aliases, omitTableQualifier := om } =
        .ok { sql := qualifyColumn
                (newRenderer testSchema
                  { dialect := .sqlite, tableAliases := aliases,
                    omitTableQualifier := om } none)
                { table := "t", name := "a" } ++ " = ?"
              args := [.vint 1], namedArgs := [] }) := by
  refine ⟨?_, ?_, ?_, ?_, ?_⟩
  · intro ctx col q h0 h1 h2
    unfold qualifyColumn
    rw [h0, h1]
    simp only [Bool.false_eq_true, if_false]
  · intro ctx col h0 h1
    unfold qualifyColumn
    rw [h0, h1]
    rfl
  · intro ctx col h0
    unfold qualifyColumn
    rw [h0]
    rfl
  · intro ctx col h0 h1
    unfold qualifyColumn
    rw [h0, h1]
    rfl
  · intro aliases om
    simp only [RenderConditionTop, Render, renderCondition]
    simp [renderComparison, renderComparisonFieldLeft, resolveAliasField,
      renderFieldComparison, Field.columnExpr, resolveValue, addArg, Schema.field,
      testSchema, testField, Field.base, initRState, Val.isNull, toInt64,
      CompareOp.toSQL, bind, Except.bind, newRenderer, List.lookup, String.append_assoc]

end Gorbac

namespace Gorbac

theorem c3_table_alias_qualification_witness :
    qualifyColumn
        { schema := testSchema, dialect := .sqlite, placeholderOffset := 0
          tableAliases := [("t", "u")], omitTableQualifier := false, bindings := none }
        { table := "t", name := "a" } = "`u`.`a`" ∧
    qualifyColumn
        { schema := testSchema, dialect := .sqlite, placeholderOffset := 0
          tableAliases := [("t", "")], omitTableQualifier := false, bindings := none }
        { table := "t", name := "a" } = "a" ∧
    qualifyColumn
        { schema := testSchema, dialect := .sqlite, placeholderOffset := 0
          tableAliases := [], omitTableQualifier := true, bindings := none }
        { table := "t", name := "a" } = "a" ∧
    qualifyColumn
        { schema := testSchema, dialect := .sqlite, placeholderOffset := 0
          tableAliases := [], omitTableQualifier := false, bindings := none }
        { table := "t", name := "a" } = "`t`.`a`" ∧
    RenderConditionTop testSchema
        (.comparison (.fieldRef "a") .eq (.literal (.vint 1))) none
        { dialect := .sqlite, tableAliases := [("t", "u")], omitTableQualifier := false } =
      .ok { sql := "`u`.`a` = ?", args := [.vint 1], namedArgs := [] } := by
  obtain ⟨h1, h2, h3, h4, h5⟩ := c3_table_alias_qualification
  refine ⟨?_, ?_, ?_, ?_, ?_⟩
  · exact (h1 ⟨testSchema, .sqlite, 0, [("t", "u")], false, none⟩
      ⟨"t", "a"⟩ "u" rfl rfl (by decide)).trans (by rfl)
  · exact h2 ⟨testSchema, .sqlite, 0, [("t", "")], false, none⟩ ⟨"t", "a"⟩ rfl rfl
  · exact h3 ⟨testSchema, .sqlite, 0, [], true, none⟩ ⟨"t", "a"⟩ rfl
  · exact (h4 ⟨testSchema, .sqlite, 0, [], false, none⟩ ⟨"t", "a"⟩ rfl rfl).trans (by rfl)
  · exact (h5 [("t", "u")] false).trans (by rfl)

end Gorbac

namespace Gorbac

theorem mapM_ok_of_total {α β : Type} (f : α → Except String β)
    (h : ∀ a, ∃ b, f a = .ok b) :
    ∀ l : List α, ∃ bs : List β, l.mapM f = .ok bs := by
  intro l
  induction l with
  | nil => exact ⟨[], rfl⟩
  | cons a rest ih =>
    obtain ⟨b, hb⟩ := h a
    obtain ⟨bs, hbs⟩ := ih
    refine ⟨b :: bs, ?_⟩
    rw [List.mapM_cons, hb, hbs]
    rfl

theorem specRoleCond_eq_mapM (compile : String → Except String Condition)
    (rolePerms required : List Permission) :
    specRoleCond compile rolePerms required =
      Except.map andAll (required.mapM (roleOrCond compile rolePerms)) := by
  have hfun : (fun q => do
      let variants ← (rolePerms.filter (fun p => p.id == q.id)).mapM (fun p =>
        match p.cel with
        | some expr => compile expr
        | none => .ok (.constant true))
      pure (orAll variants)) = roleOrCond compile rolePerms := by
    funext q
    show _ = Except.map orAll (collectPermissionVariantConditions compile (bucketsMatch rolePerms q))
    cases hm : collectPermissionVariantConditions compile (bucketsMatch rolePerms q) with
    | error e =>
        simp [collectPermissionVariantConditions, bucketsMatch] at hm
        simp [bind, Except.bind, hm, Except.map]
    | ok vs =>
        simp [collectPermissionVariantConditions, bucketsMatch] at hm
        simp [bind, Except.bind, hm, Except.map, pure, Except.pure]
  unfold specRoleCond
  rw [hfun]
  cases hm : required.mapM (roleOrCond compile rolePerms) with
  | error e => simp [bind, Except.bind, Except.map]
  | ok conds => simp [bind, Except.bind, Except.map, pure, Except.pure]

theorem variant_total (compile : String → Except String Condition)
    (htot : ∀ e, ∃ c, compile e = .ok c) (p : Permission) :
    ∃ c, (match p.cel with
      | some expr => compile expr
      | none => (.ok (.constant true) : Except String Condition)) = .ok c := by
  cases p.cel with
  | none => exact ⟨.constant true, rfl⟩
  | some e => exact htot e

theorem roleOrCond_total (compile : String → Except String Condition)
    (htot : ∀ e, ∃ c, compile e = .ok c) (rolePerms : List Permission)
    (q : Permission) : ∃ c, roleOrCond compile rolePerms q = .ok c := by
  obtain ⟨ws, hws⟩ := mapM_ok_of_total _ (variant_total compile htot)
    (bucketsMatch rolePerms q)
  exact ⟨orAll ws, by simp [roleOrCond, collectPermissionVariantConditions] at hws ⊢ <;> simp [hws, Except.map]⟩

theorem bpc_spec (compile : String → Except String Condition)
    (htot : ∀ e, ∃ c, compile e = .ok c) (rolePerms : List Permission) :
    ∀ required : List Permission,
      buildPermConds compile rolePerms required =
        if specContributes rolePerms required
        then Except.map some (required.mapM (roleOrCond compile rolePerms))
        else .ok none := by
  intro required
  induction required with
  | nil =>
    simp only [buildPermConds, specContributes, List.all_nil, if_true]
    rfl
  | cons q rest ih =>
    by_cases hm : (rolePerms.filter (fun p => p.id == q.id)).isEmpty = true
    · have hc : specContributes rolePerms (q :: rest) = false := by
        simp [specContributes, List.all_cons, List.isEmpty_iff.mp hm]
      rw [hc]
      simp [buildPermConds, bucketsMatch, hm]
    · have hm2 : (bucketsMatch rolePerms q).isEmpty = false := by
        simp only [bucketsMatch]
        exact Bool.not_eq_true _ |>.mp hm
      have hc : specContributes rolePerms (q :: rest) = specContributes rolePerms rest := by
        simp [specContributes, List.all_cons, hm]
      rw [hc]
      obtain ⟨vs, hvs⟩ := mapM_ok_of_total _ (variant_total compile htot)
        (bucketsMatch rolePerms q)
      have hcoll : collectPermissionVariantConditions compile (bucketsMatch rolePerms q)
          = .ok vs := hvs
      by_cases hrest : specContributes rolePerms rest
      · obtain ⟨conds, hconds⟩ := mapM_ok_of_total (roleOrCond compile rolePerms)
          (roleOrCond_total compile htot rolePerms) rest
        rw [if_pos hrest] at ih
        rw [if_pos hrest]
        simp only [buildPermConds, hm2, Bool.false_eq_true, if_false, hcoll, ih, hconds,
          List.mapM_cons, roleOrCond, Except.map, bind, Except.bind, pure, Except.pure]
      · rw [if_neg hrest] at ih
        rw [if_neg hrest]
        simp only [buildPermConds, hm2, Bool.false_eq_true, if_false, hcoll, ih]

end Gorbac

namespace Gorbac

theorem specRoleCond_total (compile : String → Except String Condition)
    (htot : ∀ e, ∃ c, compile e = .ok c) (rolePerms required : List Permission) :
    ∃ c, specRoleCond compile rolePerms required = .ok c := by
  obtain ⟨conds, hconds⟩ := mapM_ok_of_total (roleOrCond compile rolePerms)
    (roleOrCond_total compile htot rolePerms) required
  exact ⟨andAll conds, by rw [specRoleCond_eq_mapM, hconds]; rfl⟩

theorem bsrc_spec (compile : String → Except String Condition)
    (htot : ∀ e, ∃ c, compile e = .ok c) (rolePerms required : List Permission) :
    buildSingleRoleCondition compile rolePerms required =
      if specContributes rolePerms required
      then Except.map some (specRoleCond compile rolePerms required)
      else .ok none := by
  unfold buildSingleRoleCondition
  rw [bpc_spec compile htot rolePerms required]
  by_cases hc : specContributes rolePerms required
  · obtain ⟨conds, hconds⟩ := mapM_ok_of_total (roleOrCond compile rolePerms)
      (roleOrCond_total compile htot rolePerms) required
    rw [if_pos hc, if_pos hc, specRoleCond_eq_mapM, hconds]
    rfl
  · rw [if_neg hc, if_neg hc]

theorem buildRoleConds_spec (compile : String → Except String Condition)
    (htot : ∀ e, ∃ c, compile e = .ok c)
    (rolePermissions : String → List Permission) (required : List Permission) :
    ∀ roles : List String,
      buildRoleConds compile rolePermissions required roles =
        (roles.filter (fun r => specContributes (rolePermissions r) required)).mapM
          (fun r => specRoleCond compile (rolePermissions r) required) := by
  intro roles
  induction roles with
  | nil => rfl
  | cons r rest ih =>
    rw [buildRoleConds, bsrc_spec compile htot]
    by_cases hc : specContributes (rolePermissions r) required
    · obtain ⟨c, hcv⟩ := specRoleCond_total compile htot (rolePermissions r) required
      obtain ⟨cs, hcs⟩ := mapM_ok_of_total
        (fun r => specRoleCond compile (rolePermissions r) required)
        (fun r => specRoleCond_total compile htot (rolePermissions r) required)
        (rest.filter (fun r => specContributes (rolePermissions r) required))
      rw [if_pos hc, hcv]
      simp only [List.filter_cons, hc, if_true, List.mapM_cons, hcv, ih, hcs,
        bind, Except.bind, pure, Except.pure, Except.map]
    · rw [if_neg hc]
      simp only [List.filter_cons, hc, ih]
      simp [hc]

end Gorbac

namespace Gorbac

/-- C9: for a composer run whose compile step succeeds on every
expression: a role in which some required permission has zero matching
assigned permissions contributes nothing (buildSingleRoleCondition gives
none); a contributing role's condition is the AND over required
permissions of the OR over that permission's matching variants, bare
permissions counting as Constant(true) (specRoleCond restates exactly
this spec sentence); NewFilterProgram agrees with the spec-side composer
specCompose, the OR across the contributing roles; and when no role
contributes (and the required list is non-empty) the program's condition
is Constant(false). -/
theorem c9_composer_or_of_ands :
    (∀ (compile : String → Except String Condition)
        (rolePerms required : List Permission) (q : Permission),
      (∀ e, ∃ c, compile e = .ok c) → q ∈ required →
      bucketsMatch rolePerms q = [] →
      buildSingleRoleCondition compile rolePerms required = .ok none) ∧
    (∀ (compile : String → Except String Condition)
        (rolePerms required : List Permission),
      (∀ e, ∃ c, compile e = .ok c) →
      specContributes rolePerms required = true →
      buildSingleRoleCondition compile rolePerms required =
        Except.map some (specRoleCond compile rolePerms required)) ∧
    (∀ (compile : String → Except String Condition)
        (rolePermissions : String → List Permission) (roles : List String)
        (required : List Permission) (schema : Schema),
      (∀ e, ∃ c, compile e = .ok c) →
      NewFilterProgram compile rolePermissions roles required schema =
        specCompose compile rolePermissions roles required schema) ∧
    (∀ (compile : String → Except String Condition)
        (rolePermissions : String → List Permission) (roles : List String)
        (required : List Permission) (schema : Schema),
      (∀ e, ∃ c, compile e = .ok c) → required ≠ [] →
      (∀ r ∈ roles, specContributes (rolePermissions r) required = false) →
      NewFilterProgram compile rolePermissions roles required schema =
        .ok (NewProgramFromCondition schema (some (.constant false)))) := by
  refine ⟨?_, ?_, ?_, ?_⟩
  · intro compile rolePerms required q htot hq hempty
    have hc : specContributes rolePerms required = false := by
      cases hb : specContributes rolePerms required with
      | false => rfl
      | true =>
        exfalso
        have := List.all_eq_true.mp hb q hq
        rw [show rolePerms.filter (fun p => p.id == q.id) = bucketsMatch rolePerms q
          from rfl, hempty] at this
        simp at this
    rw [bsrc_spec compile htot, hc]
    simp
  · intro compile rolePerms required htot hc
    rw [bsrc_spec compile htot, hc]
    simp
  · intro compile rolePermissions roles required schema htot
    by_cases hreq : required.isEmpty
    · simp [NewFilterProgram, specCompose, hreq]
    · obtain ⟨conds, hconds⟩ := mapM_ok_of_total
        (fun r => specRoleCond compile (rolePermissions r) required)
        (fun r => specRoleCond_total compile htot (rolePermissions r) required)
        (roles.filter (fun r => specContributes (rolePermissions r) required))
      simp only [NewFilterProgram, specCompose, hreq, Bool.false_eq_true, if_false,
        buildRoleConds_spec compile htot rolePermissions required roles, hconds,
        bind, Except.bind, pure, Except.pure]
  · intro compile rolePermissions roles required schema htot hne hnone
    have hfil : roles.filter (fun r => specContributes (rolePermissions r) required)
        = [] := by
      rw [List.filter_eq_nil]
      intro r hr
      simp [hnone r hr]
    have hreq : required.isEmpty = false := by
      cases required with
      | nil => exact absurd rfl hne
      | cons q rest => rfl
    simp only [NewFilterProgram, hreq, Bool.false_eq_true, if_false,
      buildRoleConds_spec compile htot rolePermissions required roles, hfil]
    rfl

end Gorbac

namespace Gorbac

theorem c9_composer_or_of_ands_witness :
    buildSingleRoleCondition compileW (rolePermsW "guest") reqRW = .ok none ∧
    buildSingleRoleCondition compileW (rolePermsW "admin") reqRW =
      .ok (some (.logical .land (.logical .lor (.fieldPred "f") (.constant true))
        (.fieldPred "g"))) ∧
    NewFilterProgram compileW rolePermsW ["admin", "guest"] reqRW testSchema =
      .ok { schema := testSchema
            condition := .logical .land
              (.logical .lor (.fieldPred "f") (.constant true)) (.fieldPred "g") } ∧
    NewFilterProgram compileW rolePermsW ["guest"] reqRW testSchema =
      .ok { schema := testSchema, condition := .constant false } := by
  obtain ⟨h1, h2, h3, h4⟩ := c9_composer_or_of_ands
  refine ⟨?_, ?_, ?_, ?_⟩
  · exact h1 compileW (rolePermsW "guest") reqRW { id := "read", cel := none }
      (fun e => ⟨.fieldPred e, rfl⟩) (List.mem_cons_self _ _) (by rfl)
  · exact (h2 compileW (rolePermsW "admin") reqRW (fun e => ⟨.fieldPred e, rfl⟩)
      (by rfl)).trans (by rfl)
  · exact (h3 compileW rolePermsW ["admin", "guest"] reqRW testSchema
      (fun e => ⟨.fieldPred e, rfl⟩)).trans (by rfl)
  · refine (h4 compileW rolePermsW ["guest"] reqRW testSchema
      (fun e => ⟨.fieldPred e, rfl⟩) (by simp [reqRW]) ?_).trans (by rfl)
    intro r hr
    simp only [List.mem_singleton] at hr
    subst hr
    rfl

end Gorbac

namespace Gorbac

theorem pKeys_length (start k : Nat) : (pKeys start k).length = k := by
  simp [pKeys]

theorem pKeys_add (c a b : Nat) :
    pKeys c (a + b) = pKeys c a ++ pKeys (c + a) b := by
  simp only [pKeys, List.range_add, List.map_append, List.map_map]
  congr 1
  apply List.map_congr_left
  intro i _
  simp only [Function.comp_apply]
  congr 2
  omega

theorem NamedExtends_refl (s : RState) : NamedExtends s s :=
  ⟨rfl, ⟨[], by simp, by simp [pKeys]⟩⟩

theorem NamedExtends_trans {s t u : RState} (h1 : NamedExtends s t)
    (h2 : NamedExtends t u) : NamedExtends s u := by
  obtain ⟨ha1, vs1, hc1, hn1⟩ := h1
  obtain ⟨ha2, vs2, hc2, hn2⟩ := h2
  refine ⟨ha2.trans ha1, vs1 ++ vs2, ?_, ?_⟩
  · simp only [List.length_append]
    omega
  · rw [hn2, hn1, List.length_append, pKeys_add, hc1,
      List.zip_append (by simp [pKeys_length]), List.append_assoc]

theorem addArg_named (ctx : RCtx) (v : Val) (s : RState)
    (hd : ctx.dialect = .postgresNamedArgs) :
    addArg ctx v s = ("@p" ++ toString (s.counter + 1),
      { counter := s.counter + 1, args := s.args,
        namedArgs := s.namedArgs ++ [("p" ++ toString (s.counter + 1), v)] }) := by
  simp [addArg, hd]

theorem addArg_named_ext {ctx : RCtx} (hd : ctx.dialect = .postgresNamedArgs)
    (v : Val) (s : RState) :
    ∀ p s', addArg ctx v s = (p, s') → NamedExtends s s' := by
  intro p s' h
  rw [addArg_named ctx v s hd] at h
  cases h
  refine ⟨rfl, [v], by simp, ?_⟩
  simp [pKeys, List.range_succ]

theorem addBoolArg_named_ext {ctx : RCtx} (hd : ctx.dialect = .postgresNamedArgs)
    (b : Bool) (s : RState) :
    ∀ p s', addBoolArg ctx b s = (p, s') → NamedExtends s s' := by
  intro p s' h
  unfold addBoolArg at h
  rw [hd] at h
  exact addArg_named_ext hd _ _ _ _ h

end Gorbac

namespace Gorbac

theorem renderFieldComparison_named {ctx : RCtx}
    (hd : ctx.dialect = .postgresNamedArgs) (f : Field) (op : CompareOp)
    (right : ValueExpr) (s : RState) :
    ∀ r s', renderFieldComparison ctx f op right s = .ok (r, s') →
      NamedExtends s s' := by
  intro r s' h
  unfold renderFieldComparison at h
  simp only [bind, Except.bind] at h
  repeat' split at h
  all_goals first
    | (cases h; exact NamedExtends_refl _)
    | (cases h; exact addArg_named_ext hd _ _ _ _ (by first | assumption | rfl))
    | (cases h; exact addBoolArg_named_ext hd _ _ _ _ (by first | assumption | rfl))
    | cases h

theorem renderJSONBoolComparison_named {ctx : RCtx}
    (hd : ctx.dialect = .postgresNamedArgs) (f : Field) (op : CompareOp)
    (right : ValueExpr) (s : RState) :
    ∀ r s', renderJSONBoolComparison ctx f op right s = .ok (r, s') →
      NamedExtends s s' := by
  intro r s' h
  unfold renderJSONBoolComparison at h
  simp only [bind, Except.bind] at h
  repeat' split at h
  all_goals first
    | (cases h; exact NamedExtends_refl _)
    | (cases h; exact addArg_named_ext hd _ _ _ _ (by first | assumption | rfl))
    | cases h

theorem renderFunctionComparison_named {ctx : RCtx}
    (hd : ctx.dialect = .postgresNamedArgs) (fname : String)
    (fargs : List ValueExpr) (op : CompareOp) (right : ValueExpr) (s : RState) :
    ∀ r s', renderFunctionComparison ctx fname fargs op right s = .ok (r, s') →
      NamedExtends s s' := by
  intro r s' h
  unfold renderFunctionComparison at h
  simp only [bind, Except.bind] at h
  repeat' split at h
  all_goals first
    | (cases h; exact NamedExtends_refl _)
    | (cases h; exact addArg_named_ext hd _ _ _ _ (by first | assumption | rfl))
    | cases h

theorem renderComparisonFieldLeft_named {ctx : RCtx}
    (hd : ctx.dialect = .postgresNamedArgs) (name : String) (op : CompareOp)
    (right : ValueExpr) (s : RState) :
    ∀ r s', renderComparisonFieldLeft ctx name op right s = .ok (r, s') →
      NamedExtends s s' := by
  intro r s' h
  unfold renderComparisonFieldLeft at h
  repeat' split at h
  all_goals first
    | exact renderJSONBoolComparison_named hd _ _ _ _ _ _ h
    | exact renderFieldComparison_named hd _ _ _ _ _ _ h
    | cases h

theorem renderComparison_named {ctx : RCtx}
    (hd : ctx.dialect = .postgresNamedArgs) (left : ValueExpr) (op : CompareOp)
    (right : ValueExpr) (s : RState) :
    ∀ r s', renderComparison ctx left op right s = .ok (r, s') →
      NamedExtends s s' := by
  intro r s' h
  unfold renderComparison at h
  simp only [bind, Except.bind] at h
  repeat' split at h
  all_goals first
    | (cases h; exact NamedExtends_refl _)
    | exact renderComparisonFieldLeft_named hd _ _ _ _ _ _ h
    | exact renderFunctionComparison_named hd _ _ _ _ _ _ _ h
    | cases h

end Gorbac

namespace Gorbac

theorem renderInElems_named {ctx : RCtx}
    (hd : ctx.dialect = .postgresNamedArgs) (f : Field) :
    ∀ (l : List Val) (s : RState) ps s',
      renderInElems ctx f l s = .ok (ps, s') → NamedExtends s s' := by
  intro l
  induction l with
  | nil =>
    intro s ps s' h
    cases h
    exact NamedExtends_refl _
  | cons raw rest ih =>
    intro s ps s' h
    simp only [renderInElems] at h
    repeat' split at h
    all_goals first
      | (cases h; exact NamedExtends_trans
          (addArg_named_ext hd _ _ _ _ (by first | assumption | rfl))
          (ih _ _ _ (by assumption)))
      | cases h

theorem renderAliasInElems_named {ctx : RCtx}
    (hd : ctx.dialect = .postgresNamedArgs) (aliasName arrayExpr : String)
    (hier : Bool) :
    ∀ (l : List Val) (s : RState) ps s',
      renderAliasInElems ctx aliasName arrayExpr hier l s = .ok (ps, s') →
      NamedExtends s s' := by
  intro l
  induction l with
  | nil =>
    intro s ps s' h
    cases h
    exact NamedExtends_refl _
  | cons raw rest ih =>
    intro s ps s' h
    simp only [renderAliasInElems, hd] at h
    repeat' split at h
    all_goals cases h

theorem renderAliasInList_named {ctx : RCtx}
    (hd : ctx.dialect = .postgresNamedArgs) (aliasName : String) (f : Field)
    (values : List ValueExpr) (s : RState) :
    ∀ r s', renderAliasInList ctx aliasName f values s = .ok (r, s') →
      NamedExtends s s' := by
  intro r s' h
  unfold renderAliasInList at h
  simp only [bind, Except.bind] at h
  repeat' split at h
  all_goals first
    | (cases h; exact NamedExtends_refl _)
    | (cases h; exact renderAliasInElems_named hd _ _ _ _ _ _ _ (by assumption))
    | cases h

theorem renderInCondition_named {ctx : RCtx}
    (hd : ctx.dialect = .postgresNamedArgs) (left : ValueExpr)
    (values : List ValueExpr) (s : RState) :
    ∀ r s', renderInCondition ctx left values s = .ok (r, s') →
      NamedExtends s s' := by
  intro r s' h
  unfold renderInCondition at h
  simp only [bind, Except.bind] at h
  repeat' split at h
  all_goals first
    | (cases h; exact NamedExtends_refl _)
    | exact renderAliasInList_named hd _ _ _ _ _ _ h
    | (cases h; exact renderInElems_named hd _ _ _ _ _ (by assumption))
    | cases h

theorem renderElementInCondition_named {ctx : RCtx}
    (hd : ctx.dialect = .postgresNamedArgs) (element : ValueExpr)
    (condField : String) (s : RState) :
    ∀ r s', renderElementInCondition ctx element condField s = .ok (r, s') →
      NamedExtends s s' := by
  intro r s' h
  unfold renderElementInCondition at h
  simp only [bind, Except.bind, hd] at h
  repeat' split at h
  all_goals cases h

end Gorbac

namespace Gorbac

theorem buildJSONArrayLike_named {ctx : RCtx}
    (hd : ctx.dialect = .postgresNamedArgs) (arrayExpr pattern : String)
    (s : RState) : buildJSONArrayLike ctx arrayExpr pattern s = ("", s) := by
  simp [buildJSONArrayLike, hd]

theorem renderJSONArrayStartsWith_named {ctx : RCtx}
    (hd : ctx.dialect = .postgresNamedArgs) (f : Field) (p : String) (s : RState) :
    ∀ r s', renderJSONArrayStartsWith ctx f p s = .ok (r, s') →
      NamedExtends s s' := by
  intro r s' h
  unfold renderJSONArrayStartsWith at h
  simp only [hd] at h
  cases h

theorem renderJSONArrayEndsWith_named {ctx : RCtx}
    (hd : ctx.dialect = .postgresNamedArgs) (f : Field) (p : String) (s : RState) :
    ∀ r s', renderJSONArrayEndsWith ctx f p s = .ok (r, s') →
      NamedExtends s s' := by
  intro r s' h
  unfold renderJSONArrayEndsWith at h
  simp only [buildJSONArrayLike_named hd] at h
  cases h
  exact NamedExtends_refl _

theorem renderJSONArrayContains_named {ctx : RCtx}
    (hd : ctx.dialect = .postgresNamedArgs) (f : Field) (p : String) (s : RState) :
    ∀ r s', renderJSONArrayContains ctx f p s = .ok (r, s') →
      NamedExtends s s' := by
  intro r s' h
  unfold renderJSONArrayContains at h
  simp only [buildJSONArrayLike_named hd] at h
  cases h
  exact NamedExtends_refl _

set_option maxHeartbeats 1000000 in
theorem renderListComprehension_named {ctx : RCtx}
    (hd : ctx.dialect = .postgresNamedArgs) (condField : String)
    (pred : PredicateExpr) (s : RState) :
    ∀ r s', renderListComprehension ctx condField pred s = .ok (r, s') →
      NamedExtends s s' := by
  intro r s' h
  unfold renderListComprehension at h
  simp only [bind, Except.bind] at h
  repeat' split at h
  case _ => cases h
  case _ => cases h
  case _ => cases h
  case _ => cases h
  case _ => exact renderJSONArrayStartsWith_named hd _ _ _ _ _ h
  case _ => cases h
  case _ => exact renderJSONArrayEndsWith_named hd _ _ _ _ _ h
  case _ => cases h
  case _ => exact renderJSONArrayContains_named hd _ _ _ _ _ h

theorem renderFieldPredicate_named {ctx : RCtx}
    (hd : ctx.dialect = .postgresNamedArgs) (condField : String) (s : RState) :
    ∀ r s', renderFieldPredicate ctx condField s = .ok (r, s') →
      NamedExtends s s' := by
  intro r s' h
  unfold renderFieldPredicate at h
  repeat' split at h
  all_goals first
    | (cases h; exact NamedExtends_refl _)
    | cases h

theorem renderContainsCondition_named {ctx : RCtx}
    (hd : ctx.dialect = .postgresNamedArgs) (condField : String)
    (value : ValueExpr) (s : RState) :
    ∀ r s', renderContainsCondition ctx condField value s = .ok (r, s') →
      NamedExtends s s' := by
  intro r s' h
  unfold renderContainsCondition at h
  simp only [bind, Except.bind] at h
  repeat' split at h
  all_goals first
    | (cases h; exact NamedExtends_refl _)
    | (cases h; exact addArg_named_ext hd _ _ _ _ (by first | assumption | rfl))
    | cases h

theorem renderStartsWithCondition_named {ctx : RCtx}
    (hd : ctx.dialect = .postgresNamedArgs) (condField : String)
    (value : ValueExpr) (s : RState) :
    ∀ r s', renderStartsWithCondition ctx condField value s = .ok (r, s') →
      NamedExtends s s' := by
  intro r s' h
  unfold renderStartsWithCondition at h
  simp only [bind, Except.bind] at h
  repeat' split at h
  all_goals first
    | (cases h; exact NamedExtends_refl _)
    | (cases h; exact addArg_named_ext hd _ _ _ _ (by first | assumption | rfl))
    | cases h

theorem renderEndsWithCondition_named {ctx : RCtx}
    (hd : ctx.dialect = .postgresNamedArgs) (condField : String)
    (value : ValueExpr) (s : RState) :
    ∀ r s', renderEndsWithCondition ctx condField value s = .ok (r, s') →
      NamedExtends s s' := by
  intro r s' h
  unfold renderEndsWithCondition at h
  simp only [bind, Except.bind] at h
  repeat' split at h
  all_goals first
    | (cases h; exact NamedExtends_refl _)
    | (cases h; exact addArg_named_ext hd _ _ _ _ (by first | assumption | rfl))
    | cases h

theorem buildSQLArgPlaceholders_named {ctx : RCtx}
    (hd : ctx.dialect = .postgresNamedArgs) :
    ∀ (l : List ValueExpr) (s : RState) ps s',
      buildSQLArgPlaceholders ctx l s = .ok (ps, s') → NamedExtends s s' := by
  intro l
  induction l with
  | nil =>
    intro s ps s' h
    cases h
    exact NamedExtends_refl _
  | cons argE rest ih =>
    intro s ps s' h
    simp only [buildSQLArgPlaceholders] at h
    cases hres : resolveValue ctx argE with
    | error e =>
      rw [hres] at h
      cases h
    | ok raw =>
      simp only [hres] at h
      rcases hpair : (match raw with
        | Val.vbool b => addBoolArg ctx b s
        | _ => addArg ctx raw s) with ⟨p, s1⟩
      rw [hpair] at h
      have hstep : NamedExtends s s1 := by
        cases raw <;>
          first
            | exact addBoolArg_named_ext hd _ _ _ _ hpair
            | exact addArg_named_ext hd _ _ _ _ hpair
      cases hrec : buildSQLArgPlaceholders ctx rest s1 with
      | error e =>
        rw [hrec] at h
        cases h
      | ok pair2 =>
        obtain ⟨ps2, s2⟩ := pair2
        rw [hrec] at h
        cases h
        exact NamedExtends_trans hstep (ih _ _ _ hrec)

theorem renderSQLPredicateCondition_named {ctx : RCtx}
    (hd : ctx.dialect = .postgresNamedArgs) (name : String) (tsql : DialectSQL)
    (args : List ValueExpr) (s : RState) :
    ∀ r s', renderSQLPredicateCondition ctx name tsql args s = .ok (r, s') →
      NamedExtends s s' := by
  intro r s' h
  unfold renderSQLPredicateCondition at h
  by_cases ht : trimSpace (tsql.template ctx.dialect) = ""
  · rw [if_pos ht] at h
    cases h
  · rw [if_neg ht] at h
    repeat' split at h
    all_goals first
      | (cases h; exact buildSQLArgPlaceholders_named hd _ _ _ _ (by assumption))
      | cases h

end Gorbac

namespace Gorbac

theorem rcflat_named {ctx : RCtx} (hd : ctx.dialect = .postgresNamedArgs) :
    ∀ (n : Nat) (cond : Condition), sizeOf cond ≤ n →
      (∀ s r s', renderCondition ctx cond s = .ok (r, s') → NamedExtends s s') ∧
      (∀ op s rs s', renderFlatten ctx op cond s = .ok (rs, s') →
        NamedExtends s s') := by
  intro n
  induction n using Nat.strong_induction_on with
  | _ n ih =>
    intro cond hle
    have hrc : ∀ s r s', renderCondition ctx cond s = .ok (r, s') →
        NamedExtends s s' := by
      intro s r s' h
      cases cond with
      | logical op left right =>
        simp only [renderCondition] at h
        cases hl : renderFlatten ctx op left s with
        | error e =>
          simp only [hl] at h
          cases h
        | ok pl =>
          obtain ⟨ls, s1⟩ := pl
          simp only [hl] at h
          cases hr : renderFlatten ctx op right s1 with
          | error e =>
          simp only [hr] at h
          cases h
          | ok pr =>
            obtain ⟨rs, s2⟩ := pr
            simp only [hr] at h
            have e1 : NamedExtends s s1 :=
              (ih (sizeOf left) (by simp at hle ⊢; omega) left le_rfl).2 op s ls s1 hl
            have e2 : NamedExtends s1 s2 :=
              (ih (sizeOf right) (by simp at hle ⊢; omega) right le_rfl).2 op s1 rs s2 hr
            cases op <;> cases h <;> exact NamedExtends_trans e1 e2
      | not expr =>
        simp only [renderCondition] at h
        cases hc : renderCondition ctx expr s with
        | error e =>
          simp only [hc] at h
          cases h
        | ok pc =>
          obtain ⟨child, s1⟩ := pc
          simp only [hc] at h
          have e1 : NamedExtends s s1 :=
            (ih (sizeOf expr) (by simp at hle ⊢; omega) expr le_rfl).1 s child s1 hc
          repeat' split at h
          all_goals cases h
          all_goals exact e1
      | constant b =>
        simp only [renderCondition] at h
        split at h <;> cases h <;> exact NamedExtends_refl _
      | fieldPred f =>
        simp only [renderCondition] at h
        exact renderFieldPredicate_named hd _ _ _ _ h
      | comparison l op r2 =>
        simp only [renderCondition] at h
        exact renderComparison_named hd _ _ _ _ _ _ h
      | inCond l values =>
        simp only [renderCondition] at h
        exact renderInCondition_named hd _ _ _ _ _ h
      | elementIn e f =>
        simp only [renderCondition] at h
        exact renderElementInCondition_named hd _ _ _ _ _ h
      | containsCond f v =>
        simp only [renderCondition] at h
        exact renderContainsCondition_named hd _ _ _ _ _ h
      | startsWithCond f v =>
        simp only [renderCondition] at h
        exact renderStartsWithCondition_named hd _ _ _ _ _ h
      | endsWithCond f v =>
        simp only [renderCondition] at h
        exact renderEndsWithCondition_named hd _ _ _ _ _ h
      | listComp kind f iv pred =>
        simp only [renderCondition] at h
        exact renderListComprehension_named hd _ _ _ _ _ h
      | sqlPred name tsql args evalFn =>
        simp only [renderCondition] at h
        exact renderSQLPredicateCondition_named hd _ _ _ _ _ _ h
    refine ⟨hrc, ?_⟩
    intro op s rs s' h
    cases cond with
    | logical op2 left right =>
      simp only [renderFlatten] at h
      by_cases hop : op2 = op
      · rw [if_pos hop] at h
        cases hl : renderFlatten ctx op left s with
        | error e =>
          simp only [hl] at h
          cases h
        | ok pl =>
          obtain ⟨ls, s1⟩ := pl
          simp only [hl] at h
          cases hr : renderFlatten ctx op right s1 with
          | error e =>
            simp only [hr] at h
            cases h
          | ok pr =>
            obtain ⟨rs2, s2⟩ := pr
            simp only [hr] at h
            subst hop
            have e1 : NamedExtends s s1 :=
              (ih (sizeOf left) (by simp at hle ⊢; omega) left le_rfl).2 op2 s ls s1 hl
            have e2 : NamedExtends s1 s2 :=
              (ih (sizeOf right) (by simp at hle ⊢; omega) right le_rfl).2 op2 s1 rs2 s2 hr
            cases h
            exact NamedExtends_trans e1 e2
      · rw [if_neg hop] at h
        cases hc : renderCondition ctx (.logical op2 left right) s with
        | error e =>
          simp only [hc] at h
          cases h
        | ok pc =>
          obtain ⟨r1, s1⟩ := pc
          simp only [hc] at h
          cases h
          exact hrc s r1 s' hc
    | not expr =>
      simp only [renderFlatten] at h
      cases hc : renderCondition ctx (.not expr) s with
      | error e =>
          simp only [hc] at h
          cases h
      | ok pc =>
        obtain ⟨r1, s1⟩ := pc
        simp only [hc] at h
        cases h
        exact hrc s r1 s' hc
    | constant b =>
      simp only [renderFlatten] at h
      cases hc : renderCondition ctx (.constant b) s with
      | error e =>
          simp only [hc] at h
          cases h
      | ok pc =>
        obtain ⟨r1, s1⟩ := pc
        simp only [hc] at h
        cases h
        exact hrc s r1 s' hc
    | fieldPred f =>
      simp only [renderFlatten] at h
      cases hc : renderCondition ctx (.fieldPred f) s with
      | error e =>
          simp only [hc] at h
          cases h
      | ok pc =>
        obtain ⟨r1, s1⟩ := pc
        simp only [hc] at h
        cases h
        exact hrc s r1 s' hc
    | comparison l op2 r2 =>
      simp only [renderFlatten] at h
      cases hc : renderCondition ctx (.comparison l op2 r2) s with
      | error e =>
          simp only [hc] at h
          cases h
      | ok pc =>
        obtain ⟨r1, s1⟩ := pc
        simp only [hc] at h
        cases h
        exact hrc s r1 s' hc
    | inCond l values =>
      simp only [renderFlatten] at h
      cases hc : renderCondition ctx (.inCond l values) s with
      | error e =>
          simp only [hc] at h
          cases h
      | ok pc =>
        obtain ⟨r1, s1⟩ := pc
        simp only [hc] at h
        cases h
        exact hrc s r1 s' hc
    | elementIn e f =>
      simp only [renderFlatten] at h
      cases hc : renderCondition ctx (.elementIn e f) s with
      | error e2 =>
          simp only [hc] at h
          cases h
      | ok pc =>
        obtain ⟨r1, s1⟩ := pc
        simp only [hc] at h
        cases h
        exact hrc s r1 s' hc
    | containsCond f v =>
      simp only [renderFlatten] at h
      cases hc : renderCondition ctx (.containsCond f v) s with
      | error e =>
          simp only [hc] at h
          cases h
      | ok pc =>
        obtain ⟨r1, s1⟩ := pc
        simp only [hc] at h
        cases h
        exact hrc s r1 s' hc
    | startsWithCond f v =>
      simp only [renderFlatten] at h
      cases hc : renderCondition ctx (.startsWithCond f v) s with
      | error e =>
          simp only [hc] at h
          cases h
      | ok pc =>
        obtain ⟨r1, s1⟩ := pc
        simp only [hc] at h
        cases h
        exact hrc s r1 s' hc
    | endsWithCond f v =>
      simp only [renderFlatten] at h
      cases hc : renderCondition ctx (.endsWithCond f v) s with
      | error e =>
          simp only [hc] at h
          cases h
      | ok pc =>
        obtain ⟨r1, s1⟩ := pc
        simp only [hc] at h
        cases h
        exact hrc s r1 s' hc
    | listComp kind f iv pred =>
      simp only [renderFlatten] at h
      cases hc : renderCondition ctx (.listComp kind f iv pred) s with
      | error e =>
          simp only [hc] at h
          cases h
      | ok pc =>
        obtain ⟨r1, s1⟩ := pc
        simp only [hc] at h
        cases h
        exact hrc s r1 s' hc
    | sqlPred name tsql args evalFn =>
      simp only [renderFlatten] at h
      cases hc : renderCondition ctx (.sqlPred name tsql args evalFn) s with
      | error e =>
          simp only [hc] at h
          cases h
      | ok pc =>
        obtain ⟨r1, s1⟩ := pc
        simp only [hc] at h
        cases h
        exact hrc s r1 s' hc

theorem renderCondition_named {ctx : RCtx}
    (hd : ctx.dialect = .postgresNamedArgs) (cond : Condition) :
    ∀ s r s', renderCondition ctx cond s = .ok (r, s') → NamedExtends s s' :=
  (rcflat_named hd (sizeOf cond) cond le_rfl).1

end Gorbac

namespace Gorbac

/-- C4: with the named-args postgres dialect (spec-modelled: the dialect
constant and Statement.NamedArgs exist in src/ but the renderer branch is
missing), addArg hands out the placeholder @pN for the next counter value
N, stores the value in namedArgs under the key pN and leaves the
positional args untouched; every successful renderCondition run only
extends namedArgs with the consecutively numbered keys p(c+1)... while
preserving args; and a successful top-level Render returns a Statement
with empty positional Args whose NamedArgs keys are exactly p1..pK in
order. -/
theorem c4_named_args_dialect :
    (∀ (ctx : RCtx) (v : Val) (s : RState), ctx.dialect = .postgresNamedArgs →
      addArg ctx v s = ("@p" ++ toString (s.counter + 1),
        { counter := s.counter + 1, args := s.args,
          namedArgs := s.namedArgs ++ [("p" ++ toString (s.counter + 1), v)] })) ∧
    (∀ (ctx : RCtx) (cond : Condition) (s : RState) (r : RenderResult)
        (s' : RState), ctx.dialect = .postgresNamedArgs →
      renderCondition ctx cond s = .ok (r, s') → NamedExtends s s') ∧
    (∀ (ctx : RCtx) (cond : Condition) (stmt : Statement),
      ctx.dialect = .postgresNamedArgs →
      Render ctx cond = .ok stmt →
      stmt.args = [] ∧
        stmt.namedArgs.map Prod.fst = pKeys 0 stmt.namedArgs.length) := by
  refine ⟨?_, ?_, ?_⟩
  · intro ctx v s hd
    exact addArg_named ctx v s hd
  · intro ctx cond s r s' hd h
    exact renderCondition_named hd cond s r s' h
  · intro ctx cond stmt hd h
    unfold Render at h
    cases hc : renderCondition ctx cond initRState with
    | error e =>
      simp only [hc] at h
      cases h
    | ok pc =>
      obtain ⟨result, s⟩ := pc
      simp only [hc] at h
      obtain ⟨hargs, vs, hcnt, hnamed⟩ := renderCondition_named hd cond initRState
        result s hc
      by_cases hu : result.unsatisfiable = true
      · rw [if_pos hu] at h
        cases h
        exact ⟨rfl, rfl⟩
      · rw [if_neg hu] at h
        by_cases ht : result.trivial = true
        · rw [if_pos ht] at h
          cases h
          exact ⟨rfl, rfl⟩
        · rw [if_neg ht] at h
          cases h
          refine ⟨hargs.trans rfl, ?_⟩
          show s.namedArgs.map Prod.fst = pKeys 0 s.namedArgs.length
          rw [hnamed]
          simp only [initRState, List.nil_append]
          rw [List.map_fst_zip _ _ (le_of_eq (pKeys_length _ _)),
            List.length_zip, pKeys_length, Nat.min_self]

end Gorbac

namespace Gorbac

theorem c4_named_args_dialect_witness :
    addArg (mkCtx testSchema .postgresNamedArgs) (.vint 7) initRState =
      ("@p1", { counter := 1, args := [], namedArgs := [("p1", .vint 7)] }) ∧
    NamedExtends initRState
      { counter := 2, args := [], namedArgs := [("p1", .vint 1), ("p2", .vint 2)] } ∧
    stmtC4.args = [] ∧
    stmtC4.namedArgs.map Prod.fst = pKeys 0 stmtC4.namedArgs.length := by
  obtain ⟨h1, h2, h3⟩ := c4_named_args_dialect
  have hrender : Render (mkCtx testSchema .postgresNamedArgs) condC4 = .ok stmtC4 := by
    simp only [Render, renderCondition, renderFlatten, condC4]
    rfl
  have hrc : renderCondition (mkCtx testSchema .postgresNamedArgs) condC4 initRState =
      .ok ({ sql := "(t.a = @p1 AND t.b = @p2)" },
        { counter := 2, args := [], namedArgs := [("p1", .vint 1), ("p2", .vint 2)] }) := by
    simp only [renderCondition, renderFlatten, condC4]
    rfl
  obtain ⟨ha, hb⟩ := h3 (mkCtx testSchema .postgresNamedArgs) condC4 stmtC4 rfl hrender
  exact ⟨(h1 (mkCtx testSchema .postgresNamedArgs) (.vint 7) initRState rfl).trans
      (by rfl),
    h2 (mkCtx testSchema .postgresNamedArgs) condC4 initRState
      { sql := "(t.a = @p1 AND t.b = @p2)" }
      { counter := 2, args := [], namedArgs := [("p1", .vint 1), ("p2", .vint 2)] }
      rfl hrc,
    ha, hb⟩

end Gorbac
